import Mathlib

/-!
# Verification of a browser minesweeper (src/main.js)

Shallow embedding of the game logic of the minesweeper implementation.

Modelling conventions:

* The `fields` two-dimensional array is a total function `Nat → Nat → Int`,
  indexed row first so that `f y x` is the source's `fields[y][x]`.  Cells
  outside the `height × width` board keep the initial value `0`; the source
  never reads or writes them.
* `-1` is the mine sentinel, exactly as in the source.
* Per-button DOM state is modelled per cell: `button.disabled` becomes the
  `revealed` map and the `flagged` CSS class becomes the `flagged` map.  The
  restart button's class name (`''` / `'lost'` / `'won'`), which is the only
  record of the game outcome, becomes the `restartClass` field.
* Timer bookkeeping (`timerStart`, `timerInterval`) and pure text rendering
  (`innerText`, `dataset.value`, the `exploded` class) have no effect on any
  game-logic observable and are not part of the state.
* `Math.floor(Math.random() * size)` is modelled by an arbitrary stream of
  draws `d : Nat → Nat` together with the hypothesis `∀ i, d i < size`.
-/

namespace Minesweeper

/-- The `fields` array: `f y x` is `fields[y][x]`. -/
abbrev Cell := Nat → Nat → Int

/-- Writing a single entry of the `fields` array. -/
def setCell (f : Cell) (y x : Nat) (v : Int) : Cell :=
  fun j i => if j = y ∧ i = x then v else f j i

lemma setCell_same (f : Cell) (y x : Nat) (v : Int) :
    setCell f y x v y x = v := by simp [setCell]

lemma setCell_other (f : Cell) (y x : Nat) (v : Int) {j i : Nat}
    (h : ¬(j = y ∧ i = x)) : setCell f y x v j i = f j i := by
  simp only [setCell, if_neg h]

/-- The row (resp. column) indices scanned by `updateMineNeighbours`:
`Math.max(0, c - 1)` (which for naturals is truncated subtraction `c - 1`)
up to `Math.min(bound - 1, c + 1)` inclusive. -/
def boxRange (bound c : Nat) : List Nat :=
  List.range' (c - 1) (min (bound - 1) (c + 1) + 1 - (c - 1))

/-- The clipped 3×3 rectangle scanned by the source's double loop, row major,
as `(y, x)` pairs. -/
def boxList (w h y x : Nat) : List (Nat × Nat) :=
  (boxRange h y) ×ˢ (boxRange w x)

lemma mem_boxRange {bound c m : Nat} (hb : 0 < bound) :
    m ∈ boxRange bound c ↔ c ≤ m + 1 ∧ m ≤ c + 1 ∧ m < bound := by
  unfold boxRange
  rw [List.mem_range'_1]
  omega

lemma mem_boxList {w h y x : Nat} {p : Nat × Nat} (hw : 0 < w) (hh : 0 < h) :
    p ∈ boxList w h y x ↔
      y ≤ p.1 + 1 ∧ p.1 ≤ y + 1 ∧ p.1 < h ∧
      x ≤ p.2 + 1 ∧ p.2 ≤ x + 1 ∧ p.2 < w := by
  obtain ⟨j, i⟩ := p
  unfold boxList
  rw [List.mem_product, mem_boxRange hh, mem_boxRange hw]
  dsimp only
  tauto

lemma boxList_nodup (w h y x : Nat) : (boxList w h y x).Nodup :=
  List.Nodup.product (List.nodup_range' _ _) (List.nodup_range' _ _)

lemma boxList_length_le (w h y x : Nat) : (boxList w h y x).length ≤ 9 := by
  unfold boxList boxRange
  rw [List.length_product, List.length_range', List.length_range']
  have h1 : min (h - 1) (y + 1) + 1 - (y - 1) ≤ 3 := by omega
  have h2 : min (w - 1) (x + 1) + 1 - (x - 1) ≤ 3 := by omega
  calc (min (h - 1) (y + 1) + 1 - (y - 1)) * (min (w - 1) (x + 1) + 1 - (x - 1))
      ≤ 3 * 3 := Nat.mul_le_mul h1 h2
    _ = 9 := rfl

/-- The center cell belongs to its own clipped box whenever it is on the board. -/
lemma center_mem_boxList {w h y x : Nat} (hx : x < w) (hy : y < h) :
    (y, x) ∈ boxList w h y x := by
  rw [mem_boxList ((Nat.zero_le x).trans_lt hx) ((Nat.zero_le y).trans_lt hy)]
  omega

/-- Clipped-box membership is symmetric for on-board cells. -/
lemma boxList_symm {w h y x j i : Nat} (hw : 0 < w) (hh : 0 < h)
    (hx : x < w) (hy : y < h) (hj : j < h) (hi : i < w) :
    (j, i) ∈ boxList w h y x ↔ (y, x) ∈ boxList w h j i := by
  rw [mem_boxList hw hh, mem_boxList hw hh]
  omega

/-- One iteration of the neighbour-update loop body:
`if (fields[y][x] !== -1) { fields[y][x]++; }`. -/
def bumpCell (g : Cell) (p : Nat × Nat) : Cell :=
  if g p.1 p.2 ≠ -1 then setCell g p.1 p.2 (g p.1 p.2 + 1) else g

/-- `updateMineNeighbours`: increment every non-mine cell of the clipped 3×3
box around the mine at `(mineX, mineY)`. -/
def updateMineNeighbours (w h : Nat) (g : Cell) (mineX mineY : Nat) : Cell :=
  (boxList w h mineY mineX).foldl bumpCell g

lemma bumpCell_untouched (g : Cell) (p : Nat × Nat) {j i : Nat}
    (h : ¬(j = p.1 ∧ i = p.2)) : bumpCell g p j i = g j i := by
  unfold bumpCell
  split
  · exact setCell_other _ _ _ _ h
  · rfl

lemma foldl_bumpCell_untouched (ps : List (Nat × Nat)) (g : Cell) {j i : Nat}
    (h : (j, i) ∉ ps) : ps.foldl bumpCell g j i = g j i := by
  induction ps generalizing g with
  | nil => rfl
  | cons p ps ih =>
    rw [List.foldl_cons, ih _ (fun hm => h (List.mem_cons_of_mem _ hm))]
    exact bumpCell_untouched g p (by rintro ⟨rfl, rfl⟩; exact h (List.mem_cons_self _ _))

/-- Pointwise evaluation of the neighbour-update fold over a duplicate-free
cell list: each listed non-mine cell is incremented exactly once. -/
lemma foldl_bumpCell_eval (ps : List (Nat × Nat)) (hnd : ps.Nodup) (g : Cell)
    (j i : Nat) :
    ps.foldl bumpCell g j i =
      if (j, i) ∈ ps ∧ g j i ≠ -1 then g j i + 1 else g j i := by
  induction ps generalizing g with
  | nil => simp
  | cons p ps ih =>
    have hnd' : ps.Nodup := hnd.of_cons
    rw [List.foldl_cons]
    by_cases hp : (j, i) = p
    · subst hp
      have hnm : (j, i) ∉ ps := (List.nodup_cons.mp hnd).1
      rw [foldl_bumpCell_untouched ps _ hnm]
      unfold bumpCell
      by_cases hv : g j i = -1
      · simp [hv]
      · simp [hv, setCell_same]
    · rw [ih hnd']
      have hg : bumpCell g p j i = g j i :=
        bumpCell_untouched g p (by rintro ⟨rfl, rfl⟩; exact hp rfl)
      rw [hg]
      have hmem : (j, i) ∈ p :: ps ↔ (j, i) ∈ ps := by
        simp only [List.mem_cons]
        exact or_iff_right hp
      by_cases hin : (j, i) ∈ ps <;> simp [hmem, hin]

lemma updateMineNeighbours_eval (w h : Nat) (g : Cell) (mineX mineY j i : Nat) :
    updateMineNeighbours w h g mineX mineY j i =
      if (j, i) ∈ boxList w h mineY mineX ∧ g j i ≠ -1 then g j i + 1
      else g j i :=
  foldl_bumpCell_eval _ (boxList_nodup _ _ _ _) g j i

/-- Placing one mine at linear index `index`:
`y = index div width`, `x = index mod width`, mark the cell with `-1`, then
update the neighbours. -/
def placeMine (w h : Nat) (g : Cell) (index : Nat) : Cell :=
  updateMineNeighbours w h (setCell g (index / w) (index % w) (-1)) (index % w) (index / w)

/-- `insertMines`' placement phase: iterate `placeMine` over the chosen
linear indices in iteration order. -/
def insertMinesOn (w h : Nat) (g : Cell) (l : List Nat) : Cell :=
  l.foldl (placeMine w h) g

/-- The initial all-zero `fields` array. -/
def zeroGrid : Cell := fun _ _ => 0

/-- Linear index of the cell `(y, x)`, as used by the DOM grid (`y * width + x`). -/
def toIdx (w y x : Nat) : Nat := y * w + x

lemma toIdx_div (hw : 0 < w) (hi : i < w) : toIdx w j i / w = j := by
  unfold toIdx
  rw [Nat.mul_comm, Nat.mul_add_div hw, Nat.div_eq_of_lt hi, Nat.add_zero]

lemma toIdx_mod (hi : i < w) : toIdx w j i % w = i := by
  unfold toIdx
  rw [Nat.mul_comm, Nat.mul_add_mod, Nat.mod_eq_of_lt hi]

lemma toIdx_inj (hw : 0 < w) (hi : i < w) (hi' : i' < w)
    (h : toIdx w j i = toIdx w j' i') : j = j' ∧ i = i' := by
  have h1 : j = j' := by
    have := congrArg (· / w) h
    simpa [toIdx_div hw hi, toIdx_div hw hi'] using this
  have h2 : i = i' := by
    have := congrArg (· % w) h
    simpa [toIdx_mod hi, toIdx_mod hi'] using this
  exact ⟨h1, h2⟩

lemma toIdx_divmod (w a : Nat) : toIdx w (a / w) (a % w) = a := by
  unfold toIdx
  rw [Nat.mul_comm]
  exact Nat.div_add_mod a w

/-- Number of chosen mine indices whose cell lies in the clipped 3×3 box of
`(y, x)`.  For a non-mine center this is exactly the number of mines in its
edge-clipped 8-neighbourhood, since the center index is then not in `l`. -/
def boxMineCount (w h : Nat) (l : List Nat) (y x : Nat) : Nat :=
  (boxList w h y x).countP (fun p => decide (toIdx w p.1 p.2 ∈ l))

/-- Full pointwise description of the grid after placing the mines of `l`:
chosen cells hold `-1`, every other on-board cell holds the number of chosen
indices in its clipped box, off-board cells stay `0`. -/
def PlacedGrid (w h : Nat) (l : List Nat) (g : Cell) : Prop :=
  ∀ j i, g j i =
    if j < h ∧ i < w then
      (if toIdx w j i ∈ l then -1 else (boxMineCount w h l j i : Int))
    else 0

lemma countP_disjoint_or (xs : List α) (p q : α → Bool)
    (h : ∀ x ∈ xs, ¬(p x = true ∧ q x = true)) :
    xs.countP (fun x => p x || q x) = xs.countP p + xs.countP q := by
  induction xs with
  | nil => simp
  | cons x xs ih =>
    rw [List.countP_cons, List.countP_cons, List.countP_cons,
      ih (fun a ha => h a (List.mem_cons_of_mem _ ha))]
    have hx := h x (List.mem_cons_self _ _)
    cases hp : p x <;> cases hq : q x <;> simp [hp, hq] at hx ⊢ <;> omega

lemma countP_eq_single {α : Type} [DecidableEq α] (xs : List α) (hnd : xs.Nodup)
    (c : α) :
    xs.countP (fun x => decide (x = c)) = if c ∈ xs then 1 else 0 := by
  have hc : xs.countP (fun x => decide (x = c)) = xs.count c := by
    rw [List.count_eq_countP]
    exact List.countP_congr (fun x _ => by simp)
  rw [hc]
  by_cases hm : c ∈ xs
  · simp [hm, List.count_eq_one_of_mem hnd hm]
  · simp [hm, List.count_eq_zero_of_not_mem hm]

lemma placedGrid_nil : PlacedGrid w h [] zeroGrid := by
  intro j i
  simp [zeroGrid, boxMineCount]

/-- Appending one fresh mine index adds one to the box count of a cell exactly
when the new mine's cell lies in that cell's box. -/
lemma boxMineCount_append (hw : 0 < w) (hh : 0 < h) (l : List Nat) (a : Nat)
    (hal : a ∉ l) (j i : Nat) :
    boxMineCount w h (l ++ [a]) j i =
      boxMineCount w h l j i +
        if (a / w, a % w) ∈ boxList w h j i then 1 else 0 := by
  have hxa : a % w < w := Nat.mod_lt _ hw
  have hida : toIdx w (a / w) (a % w) = a := toIdx_divmod w a
  unfold boxMineCount
  have hsplit : ∀ p ∈ boxList w h j i,
      decide (toIdx w p.1 p.2 ∈ l ++ [a]) = true ↔
      ((fun q => decide (toIdx w q.1 q.2 ∈ l)) p ||
        (fun q => decide (q = ((a / w, a % w) : Nat × Nat))) p) = true := by
    intro p hp
    have hpb := (mem_boxList hw hh).mp hp
    have hpid : toIdx w p.1 p.2 = a ↔ p = (a / w, a % w) := by
      constructor
      · intro hEq
        rw [← hida] at hEq
        obtain ⟨h1, h2⟩ := toIdx_inj hw hpb.2.2.2.2.2 hxa hEq
        exact Prod.ext h1 h2
      · rintro rfl
        exact hida
    simp only [List.mem_append, List.mem_singleton, Bool.or_eq_true,
      decide_eq_true_eq]
    rw [hpid]
  have hdisj : ∀ p ∈ boxList w h j i,
      ¬((fun q => decide (toIdx w q.1 q.2 ∈ l)) p = true ∧
        (fun q => decide (q = ((a / w, a % w) : Nat × Nat))) p = true) := by
    intro p _ hand
    have h2 : p = ((a / w, a % w) : Nat × Nat) := of_decide_eq_true hand.2
    have h1 : toIdx w p.1 p.2 ∈ l := of_decide_eq_true hand.1
    rw [h2] at h1
    rw [hida] at h1
    exact hal h1
  rw [List.countP_congr hsplit, countP_disjoint_or _ _ _ hdisj,
    countP_eq_single _ (boxList_nodup _ _ _ _) _]
  by_cases hin : ((a / w, a % w) : Nat × Nat) ∈ boxList w h j i <;> simp [hin]

lemma placedGrid_step (hw : 0 < w) (hh : 0 < h) (l : List Nat) (a : Nat)
    (ha : a < w * h) (hal : a ∉ l) (g : Cell) (hg : PlacedGrid w h l g) :
    PlacedGrid w h (l ++ [a]) (placeMine w h g a) := by
  have hxa : a % w < w := Nat.mod_lt _ hw
  have hya : a / w < h := by
    rw [Nat.div_lt_iff_lt_mul hw, Nat.mul_comm]
    exact ha
  have hida : toIdx w (a / w) (a % w) = a := toIdx_divmod w a
  intro j i
  unfold placeMine
  rw [updateMineNeighbours_eval]
  by_cases hb : j < h ∧ i < w
  · by_cases hcen : j = a / w ∧ i = a % w
    · obtain ⟨rfl, rfl⟩ := hcen
      rw [setCell_same]
      have hmem : toIdx w (a / w) (a % w) ∈ l ++ [a] := by
        rw [hida]; simp
      simp only [ne_eq, not_true_eq_false, and_false, if_false,
        if_pos hb, if_pos hmem]
    · have hset : setCell g (a / w) (a % w) (-1) j i = g j i :=
        setCell_other _ _ _ _ hcen
      have hidne : toIdx w j i ≠ a := by
        intro hEq
        rw [← hida] at hEq
        exact hcen (toIdx_inj hw hb.2 hxa hEq)
      have hmem : toIdx w j i ∈ l ++ [a] ↔ toIdx w j i ∈ l := by
        simp [hidne]
      rw [hset]
      by_cases hml : toIdx w j i ∈ l
      · have hgv : g j i = -1 := by
          rw [hg j i, if_pos hb, if_pos hml]
        simp only [hgv, ne_eq, not_true_eq_false, and_false, if_false,
          if_pos hb, if_pos (hmem.mpr hml)]
      · have hgv : g j i = (boxMineCount w h l j i : Int) := by
          rw [hg j i, if_pos hb, if_neg hml]
        have hgne : g j i ≠ -1 := by
          rw [hgv]
          omega
        have hcount := boxMineCount_append (w := w) (h := h) hw hh l a hal j i
        have hsymm : (j, i) ∈ boxList w h (a / w) (a % w) ↔
            (a / w, a % w) ∈ boxList w h j i :=
          boxList_symm hw hh hxa hya hb.1 hb.2
        rw [if_pos hb, if_neg (fun hc => hml (hmem.mp hc)), hcount]
        by_cases hbm : (j, i) ∈ boxList w h (a / w) (a % w)
        · rw [if_pos ⟨hbm, hgne⟩, hgv, if_pos (hsymm.mp hbm)]
          push_cast
          ring
        · rw [if_neg (fun hc => hbm hc.1), hgv,
            if_neg (fun hc => hbm (hsymm.mpr hc))]
          simp
  · have hnb : (j, i) ∉ boxList w h (a / w) (a % w) := by
      intro hc
      have := (mem_boxList hw hh).mp hc
      exact hb ⟨this.2.2.1, this.2.2.2.2.2⟩
    have hset : setCell g (a / w) (a % w) (-1) j i = g j i := by
      refine setCell_other _ _ _ _ ?_
      rintro ⟨rfl, rfl⟩
      exact hb ⟨hya, hxa⟩
    have hgv : g j i = 0 := by
      rw [hg j i, if_neg hb]
    rw [if_neg (fun hc => hnb hc.1), hset, hgv, if_neg hb]

/-- The grid built by `insertMines` from any duplicate-free list of in-range
linear indices satisfies the pointwise description `PlacedGrid`. -/
lemma insertMinesOn_placedGrid (hw : 0 < w) (hh : 0 < h) (l : List Nat)
    (hnd : l.Nodup) (hran : ∀ a ∈ l, a < w * h) :
    PlacedGrid w h l (insertMinesOn w h zeroGrid l) := by
  suffices H : ∀ (l' : List Nat) (done : List Nat) (g : Cell),
      PlacedGrid w h done g → (done ++ l').Nodup →
      (∀ a ∈ done ++ l', a < w * h) →
      PlacedGrid w h (done ++ l') (l'.foldl (placeMine w h) g) by
    have := H l [] zeroGrid placedGrid_nil (by simpa using hnd) (by simpa using hran)
    simpa using this
  intro l'
  induction l' with
  | nil => intro done g hg _ _; simpa using hg
  | cons a t ih =>
    intro done g hg hnd2 hran2
    have ha : a < w * h := hran2 a (by simp)
    have hadone : a ∉ done := by
      intro hc
      have := List.disjoint_of_nodup_append hnd2
      exact this hc (by simp)
    have hg' : PlacedGrid w h (done ++ [a]) (placeMine w h g a) :=
      placedGrid_step hw hh done a ha hadone g hg
    have hassoc : done ++ a :: t = (done ++ [a]) ++ t := by simp
    rw [hassoc]
    rw [List.foldl_cons]
    exact ih (done ++ [a]) (placeMine w h g a) hg'
      (by rw [← hassoc]; exact hnd2)
      (by rw [← hassoc]; exact hran2)

/-- The on-board cells holding the mine sentinel. -/
def mineCells (w h : Nat) (g : Cell) : Finset (Nat × Nat) :=
  (Finset.range h ×ˢ Finset.range w).filter (fun p => g p.1 p.2 = -1)

/-- Number of mine cells in the edge-clipped 8-neighbourhood of `(y, x)`
(the center itself excluded). -/
def nbhdMineCount (w h : Nat) (g : Cell) (y x : Nat) : Nat :=
  ((boxList w h y x).filter
    (fun p => decide (p ≠ (y, x) ∧ g p.1 p.2 = -1))).length

lemma mem_mineCells {w h : Nat} {g : Cell} {p : Nat × Nat} :
    p ∈ mineCells w h g ↔ p.1 < h ∧ p.2 < w ∧ g p.1 p.2 = -1 := by
  unfold mineCells
  rw [Finset.mem_filter, Finset.mem_product, Finset.mem_range, Finset.mem_range]
  tauto

/-- A placed grid has exactly one mine cell per chosen index. -/
lemma mineCells_card (hw : 0 < w) (hh : 0 < h) (l : List Nat) (hnd : l.Nodup)
    (hran : ∀ a ∈ l, a < w * h) (g : Cell) (hg : PlacedGrid w h l g) :
    (mineCells w h g).card = l.length := by
  have hmine : ∀ j i, j < h → i < w → (g j i = -1 ↔ toIdx w j i ∈ l) := by
    intro j i hj hi
    rw [hg j i, if_pos ⟨hj, hi⟩]
    by_cases hm : toIdx w j i ∈ l
    · simp [hm]
    · rw [if_neg hm]
      constructor
      · intro hc
        omega
      · intro hc
        exact absurd hc hm
  rw [← List.toFinset_card_of_nodup hnd]
  refine Finset.card_nbij' (fun p => toIdx w p.1 p.2) (fun a => (a / w, a % w))
    ?_ ?_ ?_ ?_
  · intro p hp
    have hp' := mem_mineCells.mp hp
    rw [List.mem_toFinset]
    exact (hmine p.1 p.2 hp'.1 hp'.2.1).mp hp'.2.2
  · intro a ha
    rw [List.mem_toFinset] at ha
    have haw : a < w * h := hran a ha
    have hxa : a % w < w := Nat.mod_lt _ hw
    have hya : a / w < h := by
      rw [Nat.div_lt_iff_lt_mul hw, Nat.mul_comm]
      exact haw
    refine mem_mineCells.mpr ⟨hya, hxa, ?_⟩
    refine (hmine _ _ hya hxa).mpr ?_
    rw [toIdx_divmod]
    exact ha
  · intro p hp
    have hp' := mem_mineCells.mp hp
    have h1 := toIdx_div (j := p.1) hw hp'.2.1
    have h2 := toIdx_mod (j := p.1) hp'.2.1
    exact Prod.ext h1 h2
  · intro a _
    exact toIdx_divmod w a

/-- On a placed grid, a non-mine on-board cell's value is exactly the number of
mine cells in its clipped 8-neighbourhood. -/
lemma placedGrid_nonmine_value (hw : 0 < w) (hh : 0 < h) (l : List Nat)
    (g : Cell) (hg : PlacedGrid w h l g) (j i : Nat) (hj : j < h) (hi : i < w)
    (hnm : g j i ≠ -1) :
    g j i = (nbhdMineCount w h g j i : Int) := by
  have hml : toIdx w j i ∉ l := by
    intro hc
    apply hnm
    rw [hg j i, if_pos ⟨hj, hi⟩, if_pos hc]
  have hval : g j i = (boxMineCount w h l j i : Int) := by
    rw [hg j i, if_pos ⟨hj, hi⟩, if_neg hml]
  rw [hval]
  have hcong : ∀ p ∈ boxList w h j i,
      decide (toIdx w p.1 p.2 ∈ l) = true ↔
      decide (p ≠ (j, i) ∧ g p.1 p.2 = -1) = true := by
    intro p hp
    have hpb := (mem_boxList hw hh).mp hp
    have hpv : g p.1 p.2 = -1 ↔ toIdx w p.1 p.2 ∈ l := by
      rw [hg p.1 p.2, if_pos ⟨hpb.2.2.1, hpb.2.2.2.2.2⟩]
      by_cases hm : toIdx w p.1 p.2 ∈ l
      · simp [hm]
      · rw [if_neg hm]
        constructor
        · intro hc
          omega
        · intro hc
          exact absurd hc hm
    simp only [decide_eq_true_eq]
    constructor
    · intro hmem
      refine ⟨?_, hpv.mpr hmem⟩
      rintro rfl
      exact hml hmem
    · intro hc
      exact hpv.mp hc.2
  unfold boxMineCount nbhdMineCount
  rw [List.countP_congr hcong, List.countP_eq_length_filter]

/-- The clipped 8-neighbourhood holds at most 8 cells, so neighbour counts lie
in `[0, 8]`. -/
lemma nbhdMineCount_le_eight (hw : 0 < w) (hh : 0 < h) (g : Cell)
    (j i : Nat) (hj : j < h) (hi : i < w) :
    nbhdMineCount w h g j i ≤ 8 := by
  unfold nbhdMineCount
  rw [← List.countP_eq_length_filter]
  have hmono : List.countP (fun p => decide (p ≠ ((j, i) : Nat × Nat) ∧ g p.1 p.2 = -1))
      (boxList w h j i) ≤
      List.countP
        (fun a => decide ¬decide (a = ((j, i) : Nat × Nat)) = true)
        (boxList w h j i) := by
    refine List.countP_mono_left ?_
    intro p _ hp
    have := of_decide_eq_true hp
    simp [this.1]
  refine hmono.trans ?_
  have hsum := List.length_eq_countP_add_countP
    (l := boxList w h j i) (fun q => decide (q = ((j, i) : Nat × Nat)))
  have hone : List.countP (fun q => decide (q = ((j, i) : Nat × Nat)))
      (boxList w h j i) = 1 := by
    rw [countP_eq_single _ (boxList_nodup _ _ _ _) _,
      if_pos (center_mem_boxList hi hj)]
  have hlen := boxList_length_le w h j i
  omega

/-- The restart button's class name (`''`, `'lost'` or `'won'`), the only
record of the game outcome in the source. -/
inductive RestartClass where
  | pending
  | lost
  | won
deriving DecidableEq

/-- Writing one entry of a per-cell boolean map (a DOM attribute or class). -/
def setMap (m : Nat → Nat → Bool) (y x : Nat) (b : Bool) : Nat → Nat → Bool :=
  fun j i => if j = y ∧ i = x then b else m j i

lemma setMap_same (m : Nat → Nat → Bool) (y x : Nat) (b : Bool) :
    setMap m y x b y x = b := by simp [setMap]

lemma setMap_other (m : Nat → Nat → Bool) (y x : Nat) (b : Bool) {j i : Nat}
    (h : ¬(j = y ∧ i = x)) : setMap m y x b j i = m j i := by
  simp only [setMap, if_neg h]

/-- The session state: the source's `state` object together with the
per-button DOM state the game logic reads and writes (`disabled` is
`revealed`, the `flagged` class is `flagged`, the restart button's class is
`restartClass`).  Timer fields are display-only and omitted. -/
structure GameState where
  width : Nat
  height : Nat
  minesCount : Nat
  minesLeft : Int
  isGameOver : Bool
  fieldsLeft : Int
  fields : Cell
  revealed : Nat → Nat → Bool
  flagged : Nat → Nat → Bool
  restartClass : RestartClass

/-- `revealField(state, button)`: no-op returning `false` on an already
disabled (revealed) button; otherwise disable it, drop its `flagged` class,
decrement `fieldsLeft` unless the cell is a mine, and return `true`.
(`dataset.value` and `innerText` are display-only and omitted.) -/
def revealField (s : GameState) (x y : Nat) : Bool × GameState :=
  if s.revealed y x then (false, s)
  else
    let s1 : GameState :=
      { s with revealed := setMap s.revealed y x true,
               flagged := setMap s.flagged y x false }
    if s1.fields y x = -1 then (true, s1)
    else (true, { s1 with fieldsLeft := s1.fieldsLeft - 1 })

/-- The DOM grid's buttons in document order: `(y, x)`, row major. -/
def allCells (h w : Nat) : List (Nat × Nat) :=
  (List.range h) ×ˢ (List.range w)

/-- The loop body of `gameOver`: reveal the button when its cell is a mine. -/
def gameOverStep (t : GameState) (p : Nat × Nat) : GameState :=
  if t.fields p.1 p.2 = -1 then (revealField t p.2 p.1).2 else t

/-- `gameOver(view, state)`: set `isGameOver` and force-reveal every mine
cell (the timer interval is display-only and omitted). -/
def gameOver (s : GameState) : GameState :=
  (allCells s.height s.width).foldl gameOverStep { s with isGameOver := true }

/-- The recursive `visit(i, j)` closure of `revealEmptyArea`, with the shared
`visited` set and mutable state made explicit and structural fuel for
termination (`revealEmptyArea` supplies enough fuel, see `visit_closed`).
The four sequential recursive calls `visit(i-1,j); visit(i+1,j); visit(i,j-1);
visit(i,j+1)` are written as a left fold over that list of targets. -/
def visit (w h : Nat) : Nat → List Nat → GameState → Int → Int →
    List Nat × GameState
  | 0, visited, s, _, _ => (visited, s)
  | fuel + 1, visited, s, i, j =>
    if i < 0 ∨ (w : Int) ≤ i ∨ j < 0 ∨ (h : Int) ≤ j then (visited, s)
    else
      let index := j.toNat * w + i.toNat
      if index ∈ visited then (visited, s)
      else
        let s1 := (revealField s i.toNat j.toNat).2
        if s1.fields j.toNat i.toNat ≠ 0 then (index :: visited, s1)
        else
          [(i - 1, j), (i + 1, j), (i, j - 1), (i, j + 1)].foldl
            (fun r p => visit w h fuel r.1 r.2 p.1 p.2)
            (index :: visited, s1)

/-- `revealEmptyArea(grid, state, x, y)`: flood fill from `(x, y)`. -/
def revealEmptyArea (s : GameState) (x y : Nat) : GameState :=
  (visit s.width s.height (s.width * s.height + 1) [] s x y).2

/-- `handleFieldReveal(view, state, button)`. -/
def handleFieldReveal (s : GameState) (x y : Nat) : GameState :=
  if s.flagged y x then s
  else
    let s1 :=
      if s.fields y x = -1 then
        let r := revealField s x y
        if r.1 then gameOver { r.2 with restartClass := RestartClass.lost }
        else r.2
      else if s.fields y x = 0 then
        revealEmptyArea s x y
      else (revealField s x y).2
    if s1.fieldsLeft = 0 then
      gameOver { s1 with restartClass := RestartClass.won }
    else s1

/-- `handleFieldFlag(view, state, button)`: toggle the `flagged` class of a
non-disabled button and adjust `minesLeft`. -/
def handleFieldFlag (s : GameState) (x y : Nat) : GameState :=
  if s.revealed y x then s
  else
    let isFlagged := !s.flagged y x
    { s with flagged := setMap s.flagged y x isFlagged,
             minesLeft := s.minesLeft + (if isFlagged then -1 else 1) }

/-- The grid's `mousedown` listener: ignore events once the game is over,
dispatch right clicks to flagging and other clicks to revealing.
(`ensureTimerStarted` touches only display state and is omitted.) -/
def mousedown (s : GameState) (rightButton : Bool) (x y : Nat) : GameState :=
  if s.isGameOver then s
  else if rightButton then handleFieldFlag s x y
  else handleFieldReveal s x y

/-- `initGameState` with the chosen mine indices made explicit:
`fieldsLeft` starts at `width*height` and `insertMines` subtracts
`minesCount` after placing the mines. -/
def initGameStateWith (wd ht minesCount : Nat) (l : List Nat) : GameState :=
  { width := wd
    height := ht
    minesCount := minesCount
    minesLeft := (minesCount : Int)
    isGameOver := false
    fieldsLeft := (wd * ht : Int) - (minesCount : Int)
    fields := insertMinesOn wd ht zeroGrid l
    revealed := fun _ _ => false
    flagged := fun _ _ => false
    restartClass := RestartClass.pending }

/-- One iteration of `insertMines`' sampling loop body: `indices.add(index)`
(JS `Set` keeps insertion order and ignores duplicates). -/
def addIndex (acc : List Nat) (v : Nat) : List Nat :=
  if v ∈ acc then acc else acc ++ [v]

/-- The rejection-sampling loop `while (indices.size < minesCount)`, with the
random draws supplied by the stream `d` and explicit fuel; `none` means the
loop has not finished within `fuel` iterations. -/
def sampleLoop (k : Nat) (d : Nat → Nat) : Nat → Nat → List Nat →
    Option (List Nat)
  | 0, _, acc => if k ≤ acc.length then some acc else none
  | fuel + 1, i, acc =>
    if k ≤ acc.length then some acc
    else sampleLoop k d fuel (i + 1) (addIndex acc (d i))

/-- The index-sampling phase of `insertMines`. -/
def sampleIndices (k : Nat) (d : Nat → Nat) (fuel : Nat) : Option (List Nat) :=
  sampleLoop k d fuel 0 []

/-! ## Basic facts about `revealField` -/

lemma revealField_of_revealed {s : GameState} {x y : Nat}
    (h : s.revealed y x = true) : revealField s x y = (false, s) := by
  unfold revealField
  rw [if_pos h]

lemma revealField_fields (s : GameState) (x y : Nat) :
    (revealField s x y).2.fields = s.fields := by
  unfold revealField
  split
  · rfl
  · dsimp only
    split <;> rfl

lemma revealField_width (s : GameState) (x y : Nat) :
    (revealField s x y).2.width = s.width := by
  unfold revealField
  split
  · rfl
  · dsimp only
    split <;> rfl

lemma revealField_height (s : GameState) (x y : Nat) :
    (revealField s x y).2.height = s.height := by
  unfold revealField
  split
  · rfl
  · dsimp only
    split <;> rfl

lemma revealField_minesCount (s : GameState) (x y : Nat) :
    (revealField s x y).2.minesCount = s.minesCount := by
  unfold revealField
  split
  · rfl
  · dsimp only
    split <;> rfl

lemma revealField_minesLeft (s : GameState) (x y : Nat) :
    (revealField s x y).2.minesLeft = s.minesLeft := by
  unfold revealField
  split
  · rfl
  · dsimp only
    split <;> rfl

lemma revealField_isGameOver (s : GameState) (x y : Nat) :
    (revealField s x y).2.isGameOver = s.isGameOver := by
  unfold revealField
  split
  · rfl
  · dsimp only
    split <;> rfl

lemma revealField_restartClass (s : GameState) (x y : Nat) :
    (revealField s x y).2.restartClass = s.restartClass := by
  unfold revealField
  split
  · rfl
  · dsimp only
    split <;> rfl

lemma revealField_revealed_self {s : GameState} {x y : Nat}
    (h : s.revealed y x = false) :
    (revealField s x y).2.revealed y x = true := by
  unfold revealField
  rw [if_neg (by rw [h]; exact Bool.false_ne_true)]
  dsimp only
  split <;> exact setMap_same _ _ _ _

lemma revealField_revealed_after (s : GameState) (x y : Nat) :
    (revealField s x y).2.revealed y x = true ∨
      (revealField s x y).2 = s := by
  by_cases h : s.revealed y x = true
  · left
    rw [revealField_of_revealed h]
    exact h
  · left
    exact revealField_revealed_self (by revert h; cases s.revealed y x <;> simp)

lemma revealField_revealed_mono {s : GameState} {x y j i : Nat}
    (h : s.revealed j i = true) :
    (revealField s x y).2.revealed j i = true := by
  unfold revealField
  split
  · exact h
  · dsimp only
    have hs : setMap s.revealed y x true j i = true := by
      by_cases hc : j = y ∧ i = x
      · obtain ⟨rfl, rfl⟩ := hc
        exact setMap_same _ _ _ _
      · rw [setMap_other _ _ _ _ hc]
        exact h
    split <;> exact hs

lemma revealField_untouched {s : GameState} {x y j i : Nat}
    (h : ¬(j = y ∧ i = x)) :
    (revealField s x y).2.revealed j i = s.revealed j i ∧
    (revealField s x y).2.flagged j i = s.flagged j i := by
  unfold revealField
  split
  · exact ⟨rfl, rfl⟩
  · dsimp only
    constructor
    · split <;> exact setMap_other _ _ _ _ h
    · split <;> exact setMap_other _ _ _ _ h

lemma revealField_fieldsLeft_mine {s : GameState} {x y : Nat}
    (hm : s.fields y x = -1) :
    (revealField s x y).2.fieldsLeft = s.fieldsLeft := by
  unfold revealField
  split
  · rfl
  · dsimp only
    rw [if_pos hm]

lemma revealField_fieldsLeft_nonmine {s : GameState} {x y : Nat}
    (hrev : s.revealed y x = false) (hm : s.fields y x ≠ -1) :
    (revealField s x y).2.fieldsLeft = s.fieldsLeft - 1 := by
  unfold revealField
  rw [if_neg (by rw [hrev]; exact Bool.false_ne_true)]
  dsimp only
  rw [if_neg hm]

lemma revealField_flagged_self {s : GameState} {x y : Nat}
    (hrev : s.revealed y x = false) :
    (revealField s x y).2.flagged y x = false := by
  unfold revealField
  rw [if_neg (by rw [hrev]; exact Bool.false_ne_true)]
  dsimp only
  split <;> exact setMap_same _ _ _ _

/-! ## The `fieldsLeft` accounting invariant -/

/-- The on-board cells which are neither mines nor revealed: exactly the
cells a winning player still has to reveal. -/
def hiddenNonMine (s : GameState) : Finset (Nat × Nat) :=
  (Finset.range s.height ×ˢ Finset.range s.width).filter
    (fun p => s.fields p.1 p.2 ≠ -1 ∧ s.revealed p.1 p.2 = false)

/-- `state.fieldsLeft` counts the unrevealed non-mine cells. -/
def FieldsLeftInv (s : GameState) : Prop :=
  s.fieldsLeft = ((hiddenNonMine s).card : Int)

lemma mem_hiddenNonMine {s : GameState} {p : Nat × Nat} :
    p ∈ hiddenNonMine s ↔
      p.1 < s.height ∧ p.2 < s.width ∧ s.fields p.1 p.2 ≠ -1 ∧
        s.revealed p.1 p.2 = false := by
  unfold hiddenNonMine
  rw [Finset.mem_filter, Finset.mem_product, Finset.mem_range, Finset.mem_range]
  tauto

lemma revealField_fieldsLeftInv {s : GameState} {x y : Nat}
    (hx : x < s.width) (hy : y < s.height) (hInv : FieldsLeftInv s) :
    FieldsLeftInv (revealField s x y).2 := by
  by_cases hrev : s.revealed y x = true
  · rw [revealField_of_revealed hrev]
    exact hInv
  · have hrev' : s.revealed y x = false := by
      revert hrev; cases s.revealed y x <;> simp
    have hW := revealField_width s x y
    have hH := revealField_height s x y
    have hF := revealField_fields s x y
    by_cases hm : s.fields y x = -1
    · have hset : hiddenNonMine (revealField s x y).2 = hiddenNonMine s := by
        apply Finset.ext
        intro p
        rw [mem_hiddenNonMine, mem_hiddenNonMine, hW, hH, hF]
        by_cases hc : p.1 = y ∧ p.2 = x
        · obtain ⟨h1, h2⟩ := hc
          constructor
          · rintro ⟨_, _, hnm, _⟩
            rw [h1, h2] at hnm
            exact absurd hm hnm
          · rintro ⟨_, _, hnm, _⟩
            rw [h1, h2] at hnm
            exact absurd hm hnm
        · have := revealField_untouched (s := s) (x := x) (y := y)
            (j := p.1) (i := p.2) hc
          rw [this.1]
      unfold FieldsLeftInv
      rw [hset, revealField_fieldsLeft_mine hm]
      exact hInv
    · have hmemS : (y, x) ∈ hiddenNonMine s :=
        mem_hiddenNonMine.mpr ⟨hy, hx, hm, hrev'⟩
      have hset : hiddenNonMine (revealField s x y).2 =
          (hiddenNonMine s).erase (y, x) := by
        apply Finset.ext
        intro p
        rw [Finset.mem_erase, mem_hiddenNonMine, mem_hiddenNonMine, hW, hH, hF]
        by_cases hc : p.1 = y ∧ p.2 = x
        · obtain ⟨h1, h2⟩ := hc
          have hp : p = (y, x) := Prod.ext h1 h2
          constructor
          · rintro ⟨_, _, _, hr⟩
            rw [h1, h2, revealField_revealed_self hrev'] at hr
            exact absurd hr (by simp)
          · rintro ⟨hne, _⟩
            exact absurd hp hne
        · have hu := revealField_untouched (s := s) (x := x) (y := y)
            (j := p.1) (i := p.2) hc
          rw [hu.1]
          constructor
          · intro hmem
            refine ⟨?_, hmem⟩
            intro hp
            rw [hp] at hc
            exact hc ⟨rfl, rfl⟩
          · rintro ⟨_, hmem⟩
            exact hmem
      have hpos : 0 < (hiddenNonMine s).card := Finset.card_pos.mpr ⟨_, hmemS⟩
      unfold FieldsLeftInv
      rw [hset, revealField_fieldsLeft_nonmine hrev' hm,
        Finset.card_erase_of_mem hmemS, hInv]
      omega

/-! ## Facts about `gameOver` -/

lemma mem_allCells {h w : Nat} {p : Nat × Nat} :
    p ∈ allCells h w ↔ p.1 < h ∧ p.2 < w := by
  obtain ⟨y, x⟩ := p
  unfold allCells
  rw [List.mem_product, List.mem_range, List.mem_range]

lemma gameOverStep_frame (t : GameState) (p : Nat × Nat) :
    (gameOverStep t p).fields = t.fields ∧
    (gameOverStep t p).width = t.width ∧
    (gameOverStep t p).height = t.height ∧
    (gameOverStep t p).minesCount = t.minesCount ∧
    (gameOverStep t p).minesLeft = t.minesLeft ∧
    (gameOverStep t p).isGameOver = t.isGameOver ∧
    (gameOverStep t p).restartClass = t.restartClass ∧
    (gameOverStep t p).fieldsLeft = t.fieldsLeft := by
  unfold gameOverStep
  by_cases hm : t.fields p.1 p.2 = -1
  · rw [if_pos hm]
    exact ⟨revealField_fields _ _ _, revealField_width _ _ _,
      revealField_height _ _ _, revealField_minesCount _ _ _,
      revealField_minesLeft _ _ _, revealField_isGameOver _ _ _,
      revealField_restartClass _ _ _, revealField_fieldsLeft_mine hm⟩
  · rw [if_neg hm]
    exact ⟨rfl, rfl, rfl, rfl, rfl, rfl, rfl, rfl⟩

lemma foldl_gameOverStep_frame (cells : List (Nat × Nat)) (t : GameState) :
    (cells.foldl gameOverStep t).fields = t.fields ∧
    (cells.foldl gameOverStep t).width = t.width ∧
    (cells.foldl gameOverStep t).height = t.height ∧
    (cells.foldl gameOverStep t).minesCount = t.minesCount ∧
    (cells.foldl gameOverStep t).minesLeft = t.minesLeft ∧
    (cells.foldl gameOverStep t).isGameOver = t.isGameOver ∧
    (cells.foldl gameOverStep t).restartClass = t.restartClass ∧
    (cells.foldl gameOverStep t).fieldsLeft = t.fieldsLeft := by
  induction cells generalizing t with
  | nil => exact ⟨rfl, rfl, rfl, rfl, rfl, rfl, rfl, rfl⟩
  | cons p cells ih =>
    rw [List.foldl_cons]
    have h1 := gameOverStep_frame t p
    have h2 := ih (gameOverStep t p)
    exact ⟨h2.1.trans h1.1, h2.2.1.trans h1.2.1, h2.2.2.1.trans h1.2.2.1,
      h2.2.2.2.1.trans h1.2.2.2.1, h2.2.2.2.2.1.trans h1.2.2.2.2.1,
      h2.2.2.2.2.2.1.trans h1.2.2.2.2.2.1,
      h2.2.2.2.2.2.2.1.trans h1.2.2.2.2.2.2.1,
      h2.2.2.2.2.2.2.2.trans h1.2.2.2.2.2.2.2⟩

lemma foldl_gameOverStep_revealed_mono (cells : List (Nat × Nat))
    (t : GameState) {j i : Nat} (h : t.revealed j i = true) :
    (cells.foldl gameOverStep t).revealed j i = true := by
  induction cells generalizing t with
  | nil => exact h
  | cons p cells ih =>
    rw [List.foldl_cons]
    refine ih _ ?_
    unfold gameOverStep
    split
    · exact revealField_revealed_mono h
    · exact h

lemma foldl_gameOverStep_reveals (cells : List (Nat × Nat)) (t : GameState)
    {y x : Nat} (hmem : (y, x) ∈ cells) (hm : t.fields y x = -1) :
    (cells.foldl gameOverStep t).revealed y x = true := by
  induction cells generalizing t with
  | nil => exact absurd hmem (List.not_mem_nil _)
  | cons p cells ih =>
    rw [List.foldl_cons]
    by_cases hp : p = (y, x)
    · subst hp
      refine foldl_gameOverStep_revealed_mono _ _ ?_
      unfold gameOverStep
      dsimp only
      rw [if_pos hm]
      by_cases hrev : t.revealed y x = true
      · rw [revealField_of_revealed hrev]
        exact hrev
      · exact revealField_revealed_self
          (by revert hrev; cases t.revealed y x <;> simp)
    · have hmem' : (y, x) ∈ cells := by
        rcases List.mem_cons.mp hmem with hc | hc
        · exact absurd hc.symm hp
        · exact hc
      refine ih _ hmem' ?_
      rw [(gameOverStep_frame t p).1]
      exact hm

lemma foldl_gameOverStep_nonmine_untouched (cells : List (Nat × Nat))
    (t : GameState) {j i : Nat} (hm : t.fields j i ≠ -1) :
    (cells.foldl gameOverStep t).revealed j i = t.revealed j i ∧
    (cells.foldl gameOverStep t).flagged j i = t.flagged j i := by
  induction cells generalizing t with
  | nil => exact ⟨rfl, rfl⟩
  | cons p cells ih =>
    rw [List.foldl_cons]
    have hstep : (gameOverStep t p).revealed j i = t.revealed j i ∧
        (gameOverStep t p).flagged j i = t.flagged j i := by
      unfold gameOverStep
      by_cases hc : t.fields p.1 p.2 = -1
      · rw [if_pos hc]
        refine revealField_untouched ?_
        rintro ⟨rfl, rfl⟩
        exact hm hc
      · rw [if_neg hc]
        exact ⟨rfl, rfl⟩
    have hm' : (gameOverStep t p).fields j i ≠ -1 := by
      rw [(gameOverStep_frame t p).1]
      exact hm
    have := ih (gameOverStep t p) hm'
    exact ⟨this.1.trans hstep.1, this.2.trans hstep.2⟩

lemma gameOver_frame (s : GameState) :
    (gameOver s).fields = s.fields ∧
    (gameOver s).width = s.width ∧
    (gameOver s).height = s.height ∧
    (gameOver s).minesCount = s.minesCount ∧
    (gameOver s).minesLeft = s.minesLeft ∧
    (gameOver s).isGameOver = true ∧
    (gameOver s).restartClass = s.restartClass ∧
    (gameOver s).fieldsLeft = s.fieldsLeft := by
  unfold gameOver
  exact foldl_gameOverStep_frame _ _

lemma gameOver_reveals_mines (s : GameState) {y x : Nat}
    (hy : y < s.height) (hx : x < s.width) (hm : s.fields y x = -1) :
    (gameOver s).revealed y x = true := by
  unfold gameOver
  exact foldl_gameOverStep_reveals _ _ (mem_allCells.mpr ⟨hy, hx⟩) hm

lemma gameOver_revealed_mono (s : GameState) {j i : Nat}
    (h : s.revealed j i = true) : (gameOver s).revealed j i = true := by
  unfold gameOver
  exact foldl_gameOverStep_revealed_mono _ _ h

lemma gameOver_nonmine_untouched (s : GameState) {j i : Nat}
    (hm : s.fields j i ≠ -1) :
    (gameOver s).revealed j i = s.revealed j i ∧
    (gameOver s).flagged j i = s.flagged j i := by
  unfold gameOver
  exact foldl_gameOverStep_nonmine_untouched _ _ hm

lemma gameOver_fieldsLeftInv {s : GameState} (hInv : FieldsLeftInv s) :
    FieldsLeftInv (gameOver s) := by
  have hfr := gameOver_frame s
  have hset : hiddenNonMine (gameOver s) = hiddenNonMine s := by
    apply Finset.ext
    intro p
    rw [mem_hiddenNonMine, mem_hiddenNonMine, hfr.1, hfr.2.1, hfr.2.2.1]
    constructor
    · rintro ⟨h1, h2, h3, h4⟩
      refine ⟨h1, h2, h3, ?_⟩
      rw [← (gameOver_nonmine_untouched s h3).1]
      exact h4
    · rintro ⟨h1, h2, h3, h4⟩
      refine ⟨h1, h2, h3, ?_⟩
      rw [(gameOver_nonmine_untouched s h3).1]
      exact h4
  unfold FieldsLeftInv
  rw [hset, hfr.2.2.2.2.2.2.2]
  exact hInv

/-! ## Facts about the flood fill `visit` -/

/-- State components the flood fill never changes. -/
def CoreFrame (s t : GameState) : Prop :=
  t.fields = s.fields ∧ t.width = s.width ∧ t.height = s.height ∧
  t.minesCount = s.minesCount ∧ t.minesLeft = s.minesLeft ∧
  t.isGameOver = s.isGameOver ∧ t.restartClass = s.restartClass

lemma coreFrame_refl (s : GameState) : CoreFrame s s :=
  ⟨rfl, rfl, rfl, rfl, rfl, rfl, rfl⟩

lemma coreFrame_trans {s t u : GameState} (h1 : CoreFrame s t)
    (h2 : CoreFrame t u) : CoreFrame s u :=
  ⟨h2.1.trans h1.1, h2.2.1.trans h1.2.1, h2.2.2.1.trans h1.2.2.1,
    h2.2.2.2.1.trans h1.2.2.2.1, h2.2.2.2.2.1.trans h1.2.2.2.2.1,
    h2.2.2.2.2.2.1.trans h1.2.2.2.2.2.1, h2.2.2.2.2.2.2.trans h1.2.2.2.2.2.2⟩

lemma revealField_coreFrame (s : GameState) (x y : Nat) :
    CoreFrame s (revealField s x y).2 :=
  ⟨revealField_fields s x y, revealField_width s x y, revealField_height s x y,
    revealField_minesCount s x y, revealField_minesLeft s x y,
    revealField_isGameOver s x y, revealField_restartClass s x y⟩

lemma visit_coreFrame (w h fuel : Nat) :
    ∀ (v : List Nat) (s : GameState) (i j : Int),
      CoreFrame s (visit w h fuel v s i j).2 := by
  induction fuel with
  | zero => intro v s i j; exact coreFrame_refl s
  | succ fuel ih =>
    intro v s i j
    have hfold : ∀ (ns : List (Int × Int)) (r : List Nat × GameState),
        CoreFrame s r.2 →
        CoreFrame s
          ((ns.foldl (fun r p => visit w h fuel r.1 r.2 p.1 p.2) r)).2 := by
      intro ns
      induction ns with
      | nil => intro r hr; exact hr
      | cons p ns ihn =>
        intro r hr
        rw [List.foldl_cons]
        exact ihn _ (coreFrame_trans hr (ih r.1 r.2 p.1 p.2))
    simp only [visit]
    split
    · exact coreFrame_refl s
    · split
      · exact coreFrame_refl s
      · split
        · exact revealField_coreFrame s i.toNat j.toNat
        · exact hfold _ _ (revealField_coreFrame s i.toNat j.toNat)

lemma visit_subset (w h fuel : Nat) :
    ∀ (v : List Nat) (s : GameState) (i j : Int),
      v ⊆ (visit w h fuel v s i j).1 := by
  induction fuel with
  | zero => intro v s i j; exact List.Subset.refl v
  | succ fuel ih =>
    intro v s i j
    have hfold : ∀ (ns : List (Int × Int)) (r : List Nat × GameState),
        v ⊆ r.1 →
        v ⊆ ((ns.foldl (fun r p => visit w h fuel r.1 r.2 p.1 p.2) r)).1 := by
      intro ns
      induction ns with
      | nil => intro r hr; exact hr
      | cons p ns ihn =>
        intro r hr
        rw [List.foldl_cons]
        exact ihn _ (hr.trans (ih r.1 r.2 p.1 p.2))
    simp only [visit]
    split
    · exact List.Subset.refl v
    · split
      · exact List.Subset.refl v
      · split
        · exact List.subset_cons_self _ _
        · exact hfold _ _ (List.subset_cons_self _ _)

lemma index_lt_of_bounds {w h jn im : Nat} (hj : jn < h) (hi : im < w) :
    jn * w + im < w * h := by
  calc jn * w + im < jn * w + w := by omega
    _ = (jn + 1) * w := by ring
    _ ≤ h * w := Nat.mul_le_mul_right w hj
    _ = w * h := Nat.mul_comm h w

lemma visit_mem_bound (w h fuel : Nat) :
    ∀ (v : List Nat) (s : GameState) (i j : Int),
      ∀ a ∈ (visit w h fuel v s i j).1, a ∈ v ∨ a < w * h := by
  induction fuel with
  | zero => intro v s i j a ha; exact Or.inl ha
  | succ fuel ih =>
    intro v s i j
    have hfold : ∀ (ns : List (Int × Int)) (r : List Nat × GameState),
        (∀ a ∈ r.1, a ∈ v ∨ a < w * h) →
        ∀ a ∈ ((ns.foldl (fun r p => visit w h fuel r.1 r.2 p.1 p.2) r)).1,
          a ∈ v ∨ a < w * h := by
      intro ns
      induction ns with
      | nil => intro r hr; exact hr
      | cons p ns ihn =>
        intro r hr
        rw [List.foldl_cons]
        refine ihn _ ?_
        intro a ha
        rcases ih r.1 r.2 p.1 p.2 a ha with hin | hlt
        · exact hr a hin
        · exact Or.inr hlt
    simp only [visit]
    split
    · intro a ha; exact Or.inl ha
    · rename_i hbound
      push_neg at hbound
      have hjn : j.toNat < h := by omega
      have hin : i.toNat < w := by omega
      have hidx : j.toNat * w + i.toNat < w * h := index_lt_of_bounds hjn hin
      split
      · intro a ha; exact Or.inl ha
      · split
        · intro a ha
          rcases List.mem_cons.mp ha with hc | hc
          · exact Or.inr (hc ▸ hidx)
          · exact Or.inl hc
        · refine hfold _ _ ?_
          intro a ha
          rcases List.mem_cons.mp ha with hc | hc
          · exact Or.inr (hc ▸ hidx)
          · exact Or.inl hc

lemma revealField_revealed_own (s : GameState) (x y : Nat) :
    (revealField s x y).2.revealed y x = true := by
  by_cases h : s.revealed y x = true
  · rw [revealField_of_revealed h]
    exact h
  · exact revealField_revealed_self (by revert h; cases s.revealed y x <;> simp)

lemma foldVisit_subset (w h fuel : Nat) (ns : List (Int × Int)) :
    ∀ r : List Nat × GameState,
      r.1 ⊆ (ns.foldl (fun r p => visit w h fuel r.1 r.2 p.1 p.2) r).1 := by
  induction ns with
  | nil => intro r; exact List.Subset.refl _
  | cons p ns ihn =>
    intro r
    rw [List.foldl_cons]
    exact (visit_subset w h fuel r.1 r.2 p.1 p.2).trans
      (ihn (visit w h fuel r.1 r.2 p.1 p.2))

lemma visit_revealed_mono (w h fuel : Nat) :
    ∀ (v : List Nat) (s : GameState) (i j : Int) {y x : Nat},
      s.revealed y x = true → (visit w h fuel v s i j).2.revealed y x = true := by
  induction fuel with
  | zero => intro v s i j y x hr; exact hr
  | succ fuel ih =>
    intro v s i j y x hr
    have hfold : ∀ (ns : List (Int × Int)) (r : List Nat × GameState),
        r.2.revealed y x = true →
        ((ns.foldl (fun r p => visit w h fuel r.1 r.2 p.1 p.2) r)).2.revealed
          y x = true := by
      intro ns
      induction ns with
      | nil => intro r h; exact h
      | cons p ns ihn =>
        intro r h
        rw [List.foldl_cons]
        exact ihn _ (ih r.1 r.2 p.1 p.2 h)
    simp only [visit]
    split
    · exact hr
    · split
      · exact hr
      · split
        · exact revealField_revealed_mono hr
        · exact hfold _ _ (revealField_revealed_mono hr)

/-- Every cell the flood fill adds to the visited set is revealed in the
resulting state. -/
lemma visit_visited_revealed (w h fuel : Nat) :
    ∀ (v : List Nat) (s : GameState) (i j : Int) {y x : Nat},
      y < h → x < w → toIdx w y x ∈ (visit w h fuel v s i j).1 →
      toIdx w y x ∉ v → (visit w h fuel v s i j).2.revealed y x = true := by
  induction fuel with
  | zero => intro v s i j y x _ _ hmem hnv; exact absurd hmem hnv
  | succ fuel ih =>
    intro v s i j y x hy hx hmem hnv
    revert hmem
    simp only [visit]
    split
    · intro hmem; exact absurd hmem hnv
    · rename_i hbound
      push_neg at hbound
      have hjn : j.toNat < h := by omega
      have hin : i.toNat < w := by omega
      split
      · intro hmem; exact absurd hmem hnv
      · rename_i hfresh
        have hkey : ∀ hmem2 : toIdx w y x ∈ (j.toNat * w + i.toNat) :: v,
            (y, x) = (j.toNat, i.toNat) := by
          intro hmem2
          rcases List.mem_cons.mp hmem2 with hc | hc
          · have : toIdx w y x = toIdx w j.toNat i.toNat := hc
            have := toIdx_inj ((Nat.zero_le x).trans_lt hx) hx hin this
            exact Prod.ext this.1 this.2
          · exact absurd hc hnv
        split
        · intro hmem
          have := hkey hmem
          have h1 : y = j.toNat := congrArg Prod.fst this
          have h2 : x = i.toNat := congrArg Prod.snd this
          rw [h1, h2]
          exact revealField_revealed_own s i.toNat j.toNat
        · -- flood-fill branch
          intro hmem
          have hfold : ∀ (ns : List (Int × Int)) (r : List Nat × GameState),
              (toIdx w y x ∈ r.1 → toIdx w y x ∉ v → r.2.revealed y x = true) →
              toIdx w y x ∈
                ((ns.foldl (fun r p => visit w h fuel r.1 r.2 p.1 p.2) r)).1 →
              ((ns.foldl (fun r p => visit w h fuel r.1 r.2 p.1 p.2) r)).2.revealed
                y x = true := by
            intro ns
            induction ns with
            | nil => intro r hr hmem2; exact hr hmem2 hnv
            | cons p ns ihn =>
              intro r hr hmem2
              rw [List.foldl_cons] at hmem2 ⊢
              refine ihn (visit w h fuel r.1 r.2 p.1 p.2) ?_ hmem2
              intro hmem3 _
              by_cases hrv : toIdx w y x ∈ r.1
              · exact visit_revealed_mono w h fuel r.1 r.2 p.1 p.2
                  (hr hrv hnv)
              · exact ih r.1 r.2 p.1 p.2 hy hx hmem3 hrv
          refine hfold _ _ ?_ hmem
          intro hmem2 _
          have := hkey hmem2
          have h1 : y = j.toNat := congrArg Prod.fst this
          have h2 : x = i.toNat := congrArg Prod.snd this
          rw [h1, h2]
          exact revealField_revealed_own s i.toNat j.toNat

/-- Cells whose row or column is off the board are never touched. -/
lemma visit_offboard_untouched (w h fuel : Nat) :
    ∀ (v : List Nat) (s : GameState) (i j : Int) {y x : Nat},
      (h ≤ y ∨ w ≤ x) →
      (visit w h fuel v s i j).2.revealed y x = s.revealed y x ∧
      (visit w h fuel v s i j).2.flagged y x = s.flagged y x := by
  induction fuel with
  | zero => intro v s i j y x _; exact ⟨rfl, rfl⟩
  | succ fuel ih =>
    intro v s i j y x hoff
    have hfold : ∀ (ns : List (Int × Int)) (r : List Nat × GameState),
        (r.2.revealed y x = s.revealed y x ∧ r.2.flagged y x = s.flagged y x) →
        ((ns.foldl (fun r p => visit w h fuel r.1 r.2 p.1 p.2) r)).2.revealed
            y x = s.revealed y x ∧
        ((ns.foldl (fun r p => visit w h fuel r.1 r.2 p.1 p.2) r)).2.flagged
            y x = s.flagged y x := by
      intro ns
      induction ns with
      | nil => intro r hr; exact hr
      | cons p ns ihn =>
        intro r hr
        rw [List.foldl_cons]
        refine ihn _ ?_
        have := ih r.1 r.2 p.1 p.2 (y := y) (x := x) hoff
        exact ⟨this.1.trans hr.1, this.2.trans hr.2⟩
    simp only [visit]
    split
    · exact ⟨rfl, rfl⟩
    · rename_i hbound
      push_neg at hbound
      have hjn : j.toNat < h := by omega
      have hin : i.toNat < w := by omega
      have hne : ¬(y = j.toNat ∧ x = i.toNat) := by
        rintro ⟨rfl, rfl⟩
        rcases hoff with hc | hc <;> omega
      split
      · exact ⟨rfl, rfl⟩
      · split
        · exact revealField_untouched hne
        · refine hfold _ _ ?_
          exact revealField_untouched hne

/-- On-board cells whose linear index the flood fill does not newly visit
keep their reveal and flag state. -/
lemma visit_unvisited_untouched (w h fuel : Nat) :
    ∀ (v : List Nat) (s : GameState) (i j : Int) {y x : Nat},
      y < h → x < w →
      (toIdx w y x ∈ v ∨ toIdx w y x ∉ (visit w h fuel v s i j).1) →
      (visit w h fuel v s i j).2.revealed y x = s.revealed y x ∧
      (visit w h fuel v s i j).2.flagged y x = s.flagged y x := by
  induction fuel with
  | zero => intro v s i j y x _ _ _; exact ⟨rfl, rfl⟩
  | succ fuel ih =>
    intro v s i j y x hy hx hcond
    revert hcond
    simp only [visit]
    split
    · intro _; exact ⟨rfl, rfl⟩
    · rename_i hbound
      push_neg at hbound
      have hjn : j.toNat < h := by omega
      have hin : i.toNat < w := by omega
      split
      · intro _; exact ⟨rfl, rfl⟩
      · rename_i hfresh
        have hidx : toIdx w j.toNat i.toNat = j.toNat * w + i.toNat := rfl
        split
        · intro hcond
          have hne : ¬(y = j.toNat ∧ x = i.toNat) := by
            rintro ⟨rfl, rfl⟩
            rcases hcond with hc | hc
            · rw [hidx] at hc
              exact hfresh hc
            · exact hc (hidx ▸ List.mem_cons_self _ _)
          exact revealField_untouched hne
        · intro hcond
          have hsub0 : ((j.toNat * w + i.toNat) :: v) ⊆
              (([((i - 1 : Int), j), (i + 1, j), (i, j - 1),
                (i, j + 1)]).foldl (fun r p => visit w h fuel r.1 r.2 p.1 p.2)
                ((j.toNat * w + i.toNat) :: v,
                  (revealField s i.toNat j.toNat).2)).1 :=
            foldVisit_subset w h fuel
              [((i - 1 : Int), j), (i + 1, j), (i, j - 1), (i, j + 1)]
              ((j.toNat * w + i.toNat) :: v, (revealField s i.toNat j.toNat).2)
          have hne : ¬(y = j.toNat ∧ x = i.toNat) := by
            rintro ⟨rfl, rfl⟩
            rcases hcond with hc | hc
            · rw [hidx] at hc
              exact hfresh hc
            · exact hc (hsub0 (hidx ▸ List.mem_cons_self _ _))
          have hfold : ∀ (ns : List (Int × Int)) (r : List Nat × GameState),
              v ⊆ r.1 →
              (toIdx w y x ∈ v ∨
                toIdx w y x ∉
                  ((ns.foldl (fun r p => visit w h fuel r.1 r.2 p.1 p.2) r)).1) →
              ((ns.foldl (fun r p => visit w h fuel r.1 r.2 p.1 p.2) r)).2.revealed
                  y x = r.2.revealed y x ∧
              ((ns.foldl (fun r p => visit w h fuel r.1 r.2 p.1 p.2) r)).2.flagged
                  y x = r.2.flagged y x := by
            intro ns
            induction ns with
            | nil => intro r _ _; exact ⟨rfl, rfl⟩
            | cons p ns ihn =>
              intro r hsub hcond2
              rw [List.foldl_cons] at hcond2 ⊢
              have hsubnext : r.1 ⊆
                  (visit w h fuel r.1 r.2 p.1 p.2).1 :=
                visit_subset w h fuel r.1 r.2 p.1 p.2
              have hstep : (visit w h fuel r.1 r.2 p.1 p.2).2.revealed y x =
                  r.2.revealed y x ∧
                  (visit w h fuel r.1 r.2 p.1 p.2).2.flagged y x =
                  r.2.flagged y x := by
                refine ih r.1 r.2 p.1 p.2 hy hx ?_
                rcases hcond2 with hc | hc
                · exact Or.inl (hsub hc)
                · refine Or.inr ?_
                  intro hmem
                  exact hc (foldVisit_subset w h fuel ns _ hmem)
              have hrest := ihn (visit w h fuel r.1 r.2 p.1 p.2)
                (hsub.trans hsubnext)
                (by
                  rcases hcond2 with hc | hc
                  · exact Or.inl hc
                  · exact Or.inr hc)
              exact ⟨hrest.1.trans hstep.1, hrest.2.trans hstep.2⟩
          have hmain := hfold _ ((j.toNat * w + i.toNat) :: v,
            (revealField s i.toNat j.toNat).2)
            (List.subset_cons_self _ _)
            (by
              rcases hcond with hc | hc
              · exact Or.inl hc
              · exact Or.inr hc)
          have hstep0 := revealField_untouched
            (s := s) (x := i.toNat) (y := j.toNat) (j := y) (i := x) hne
          exact ⟨hmain.1.trans hstep0.1, hmain.2.trans hstep0.2⟩

/-- The set of visited cells depends only on the grid values, not on the
reveal or flag state: the traversal conditions read only `fields`. -/
lemma visit_congr (w h fuel : Nat) :
    ∀ (v : List Nat) (s t : GameState) (i j : Int), s.fields = t.fields →
      (visit w h fuel v s i j).1 = (visit w h fuel v t i j).1 := by
  induction fuel with
  | zero => intro v s t i j _; rfl
  | succ fuel ih =>
    intro v s t i j hst
    have hfold : ∀ (ns : List (Int × Int)) (rs rt : List Nat × GameState),
        rs.1 = rt.1 → rs.2.fields = rt.2.fields →
        ((ns.foldl (fun r p => visit w h fuel r.1 r.2 p.1 p.2) rs)).1 =
          ((ns.foldl (fun r p => visit w h fuel r.1 r.2 p.1 p.2) rt)).1 ∧
        ((ns.foldl (fun r p => visit w h fuel r.1 r.2 p.1 p.2) rs)).2.fields =
          ((ns.foldl (fun r p => visit w h fuel r.1 r.2 p.1 p.2) rt)).2.fields := by
      intro ns
      induction ns with
      | nil => intro rs rt h1 h2; exact ⟨h1, h2⟩
      | cons p ns ihn =>
        intro rs rt h1 h2
        rw [List.foldl_cons, List.foldl_cons]
        refine ihn _ _ ?_ ?_
        · rw [h1]
          exact ih rt.1 rs.2 rt.2 p.1 p.2 h2
        · rw [(visit_coreFrame w h fuel rs.1 rs.2 p.1 p.2).1,
            (visit_coreFrame w h fuel rt.1 rt.2 p.1 p.2).1]
          exact h2
    simp only [visit]
    by_cases hb : i < 0 ∨ (w : Int) ≤ i ∨ j < 0 ∨ (h : Int) ≤ j
    · rw [if_pos hb, if_pos hb]
    · rw [if_neg hb, if_neg hb]
      by_cases hv : (j.toNat * w + i.toNat) ∈ v
      · rw [if_pos hv, if_pos hv]
      · rw [if_neg hv, if_neg hv]
        have hf1 : (revealField s i.toNat j.toNat).2.fields = s.fields :=
          revealField_fields s i.toNat j.toNat
        have hf2 : (revealField t i.toNat j.toNat).2.fields = t.fields :=
          revealField_fields t i.toNat j.toNat
        have hcond : ((revealField s i.toNat j.toNat).2.fields j.toNat i.toNat
            ≠ 0) ↔
            ((revealField t i.toNat j.toNat).2.fields j.toNat i.toNat ≠ 0) := by
          rw [hf1, hf2, hst]
        by_cases hz : (revealField s i.toNat j.toNat).2.fields j.toNat i.toNat
            ≠ 0
        · rw [if_pos hz, if_pos (hcond.mp hz)]
        · rw [if_neg hz, if_neg (fun hc => hz (hcond.mpr hc))]
          refine (hfold [((i - 1 : Int), j), (i + 1, j), (i, j - 1), (i, j + 1)]
            ((j.toNat * w + i.toNat) :: v, (revealField s i.toNat j.toNat).2)
            ((j.toNat * w + i.toNat) :: v, (revealField t i.toNat j.toNat).2)
            rfl ?_).1
          rw [hf1, hf2, hst]

/-- With positive fuel, an in-bounds start cell always ends up visited. -/
lemma visit_start_mem (w h fuel : Nat) (v : List Nat) (s : GameState)
    (i j : Int) (hb : ¬(i < 0 ∨ (w : Int) ≤ i ∨ j < 0 ∨ (h : Int) ≤ j)) :
    (j.toNat * w + i.toNat) ∈ (visit w h (fuel + 1) v s i j).1 := by
  simp only [visit]
  rw [if_neg hb]
  by_cases hv : (j.toNat * w + i.toNat) ∈ v
  · rw [if_pos hv]
    exact hv
  · rw [if_neg hv]
    split
    · exact List.mem_cons_self _ _
    · exact foldVisit_subset w h fuel _ _ (List.mem_cons_self _ _)

/-- If every cell the flood fill would newly visit is already revealed, the
state comes back unchanged (each `revealField` call is a no-op). -/
lemma visit_state_id (w h fuel : Nat) :
    ∀ (v : List Nat) (s : GameState) (i j : Int),
      (∀ y x, y < h → x < w → toIdx w y x ∈ (visit w h fuel v s i j).1 →
        toIdx w y x ∉ v → s.revealed y x = true) →
      (visit w h fuel v s i j).2 = s := by
  induction fuel with
  | zero => intro v s i j _; rfl
  | succ fuel ih =>
    intro v s i j H
    by_cases hb : i < 0 ∨ (w : Int) ≤ i ∨ j < 0 ∨ (h : Int) ≤ j
    · simp only [visit]
      rw [if_pos hb]
    · have hjn : j.toNat < h := by push_neg at hb; omega
      have hin : i.toNat < w := by push_neg at hb; omega
      by_cases hv : (j.toNat * w + i.toNat) ∈ v
      · simp only [visit]
        rw [if_neg hb, if_pos hv]
      · have hmem0 : (j.toNat * w + i.toNat) ∈ (visit w h (fuel + 1) v s i j).1 :=
          visit_start_mem w h fuel v s i j hb
        have hrev : s.revealed j.toNat i.toNat = true :=
          H j.toNat i.toNat hjn hin hmem0 hv
        have hs1 : (revealField s i.toNat j.toNat).2 = s := by
          rw [revealField_of_revealed hrev]
        by_cases hz : (revealField s i.toNat j.toNat).2.fields j.toNat i.toNat
            ≠ 0
        · simp only [visit]
          rw [if_neg hb, if_neg hv, if_pos hz]
          exact hs1
        · have hres : (visit w h (fuel + 1) v s i j).1 =
              (([((i - 1 : Int), j), (i + 1, j), (i, j - 1), (i, j + 1)]).foldl
                (fun r p => visit w h fuel r.1 r.2 p.1 p.2)
                ((j.toNat * w + i.toNat) :: v,
                  (revealField s i.toNat j.toNat).2)).1 := by
            simp only [visit]
            rw [if_neg hb, if_neg hv, if_neg hz]
          rw [hres] at H
          have hfold : ∀ (ns : List (Int × Int)) (r : List Nat × GameState),
              v ⊆ r.1 → r.2 = s →
              (∀ y x, y < h → x < w →
                toIdx w y x ∈
                  ((ns.foldl (fun r p => visit w h fuel r.1 r.2 p.1 p.2) r)).1 →
                toIdx w y x ∉ v → s.revealed y x = true) →
              ((ns.foldl (fun r p => visit w h fuel r.1 r.2 p.1 p.2) r)).2 = s := by
            intro ns
            induction ns with
            | nil => intro r _ hr _; exact hr
            | cons p ns ihn =>
              intro r hsub hr H2
              rw [List.foldl_cons] at H2 ⊢
              have hstep : (visit w h fuel r.1 r.2 p.1 p.2).2 = s := by
                rw [hr]
                refine ih r.1 s p.1 p.2 ?_
                intro y x hy hx hm hnv
                refine H2 y x hy hx ?_ (fun hc => hnv (hsub hc))
                rw [← hr] at hm
                exact foldVisit_subset w h fuel ns _ hm
              refine ihn (visit w h fuel r.1 r.2 p.1 p.2)
                (hsub.trans (visit_subset w h fuel r.1 r.2 p.1 p.2)) hstep H2
          simp only [visit]
          rw [if_neg hb, if_neg hv, if_neg hz]
          exact hfold _ _ (List.subset_cons_self _ _) hs1 H

/-! ## Fuel sufficiency: the closure property of the visited set -/

/-- Number of distinct on-board linear indices in a visited list. -/
def bcard (w h : Nat) (v : List Nat) : Nat :=
  (v.toFinset.filter (fun a => a < w * h)).card

lemma bcard_le (w h : Nat) (v : List Nat) : bcard w h v ≤ w * h := by
  unfold bcard
  calc (v.toFinset.filter (fun a => a < w * h)).card
      ≤ (Finset.range (w * h)).card := by
        refine Finset.card_le_card ?_
        intro a ha
        rw [Finset.mem_range]
        exact (Finset.mem_filter.mp ha).2
    _ = w * h := Finset.card_range _

lemma bcard_mono (w h : Nat) {v v' : List Nat} (hsub : v ⊆ v') :
    bcard w h v ≤ bcard w h v' := by
  unfold bcard
  refine Finset.card_le_card ?_
  refine Finset.filter_subset_filter _ ?_
  intro a ha
  rw [List.mem_toFinset] at ha ⊢
  exact hsub ha

lemma bcard_cons_fresh (w h : Nat) {v : List Nat} {a : Nat} (hfresh : a ∉ v)
    (hlt : a < w * h) : bcard w h (a :: v) = bcard w h v + 1 := by
  unfold bcard
  rw [List.toFinset_cons, Finset.filter_insert, if_pos hlt]
  refine Finset.card_insert_of_not_mem ?_
  intro hc
  have := Finset.mem_filter.mp hc
  rw [List.mem_toFinset] at this
  exact hfresh this.1

/-- 4-directional adjacency of grid cells (row, column). -/
def Adj (y x y' x' : Nat) : Prop :=
  (y' = y ∧ (x' + 1 = x ∨ x' = x + 1)) ∨
  (x' = x ∧ (y' + 1 = y ∨ y' = y + 1))

/-- With enough fuel the flood fill (a) visits an in-bounds start cell and
(b) leaves a visited set closed under expansion: every newly visited
zero-valued cell has all its in-bounds 4-neighbours visited. -/
lemma visit_closed (w h : Nat) :
    ∀ (fuel : Nat) (v : List Nat) (s : GameState) (i j : Int),
      w * h + 1 ≤ fuel + bcard w h v →
      (¬(i < 0 ∨ (w : Int) ≤ i ∨ j < 0 ∨ (h : Int) ≤ j) →
        (j.toNat * w + i.toNat) ∈ (visit w h fuel v s i j).1) ∧
      (∀ y x, y < h → x < w → toIdx w y x ∈ (visit w h fuel v s i j).1 →
        toIdx w y x ∉ v → s.fields y x = 0 →
        ∀ y' x', Adj y x y' x' → y' < h → x' < w →
          toIdx w y' x' ∈ (visit w h fuel v s i j).1) := by
  intro fuel
  induction fuel with
  | zero =>
    intro v s i j hfuel
    have := bcard_le w h v
    omega
  | succ fuel ih =>
    intro v s i j hfuel
    by_cases hb : i < 0 ∨ (w : Int) ≤ i ∨ j < 0 ∨ (h : Int) ≤ j
    · constructor
      · intro hnb
        exact absurd hb hnb
      · intro y x _ _ hmem hnv _ y' x' _ _ _
        have hres : (visit w h (fuel + 1) v s i j).1 = v := by
          simp only [visit]
          rw [if_pos hb]
        rw [hres] at hmem
        exact absurd hmem hnv
    · have hjn : j.toNat < h := by push_neg at hb; omega
      have hin : i.toNat < w := by push_neg at hb; omega
      have hidx : toIdx w j.toNat i.toNat = j.toNat * w + i.toNat := rfl
      have hidxlt : j.toNat * w + i.toNat < w * h := index_lt_of_bounds hjn hin
      by_cases hv : (j.toNat * w + i.toNat) ∈ v
      · have hres : (visit w h (fuel + 1) v s i j).1 = v := by
          simp only [visit]
          rw [if_neg hb, if_pos hv]
        constructor
        · intro _
          rw [hres]
          exact hv
        · intro y x _ _ hmem hnv _ _ _ _ _ _
          rw [hres] at hmem
          exact absurd hmem hnv
      · have hb1 : bcard w h ((j.toNat * w + i.toNat) :: v) = bcard w h v + 1 :=
          bcard_cons_fresh w h hv hidxlt
        by_cases hz : (revealField s i.toNat j.toNat).2.fields j.toNat i.toNat
            ≠ 0
        · have hres : (visit w h (fuel + 1) v s i j).1 =
              (j.toNat * w + i.toNat) :: v := by
            simp only [visit]
            rw [if_neg hb, if_neg hv, if_pos hz]
          rw [revealField_fields] at hz
          constructor
          · intro _
            rw [hres]
            exact List.mem_cons_self _ _
          · intro y x hy hx hmem hnv h0 y' x' _ _ _
            rw [hres] at hmem
            rcases List.mem_cons.mp hmem with hc | hc
            · have heq := toIdx_inj ((Nat.zero_le x).trans_lt hx) hx hin
                (hc.trans hidx.symm)
              rw [heq.1, heq.2] at h0
              exact absurd h0 hz
            · exact absurd hc hnv
        · -- flood-fill branch
          have hres : (visit w h (fuel + 1) v s i j) =
              (([((i - 1 : Int), j), (i + 1, j), (i, j - 1), (i, j + 1)]).foldl
                (fun r p => visit w h fuel r.1 r.2 p.1 p.2)
                ((j.toNat * w + i.toNat) :: v,
                  (revealField s i.toNat j.toNat).2)) := by
            simp only [visit]
            rw [if_neg hb, if_neg hv, if_neg hz]
          rw [revealField_fields] at hz
          push_neg at hz
          -- the fold preserves closure of newly added cells
          have hfoldclosed : ∀ (ns : List (Int × Int))
              (r : List Nat × GameState),
              w * h + 1 ≤ fuel + bcard w h r.1 → r.2.fields = s.fields →
              ∀ y x, y < h → x < w →
                toIdx w y x ∈
                  ((ns.foldl (fun r p => visit w h fuel r.1 r.2 p.1 p.2) r)).1 →
                toIdx w y x ∉ r.1 → s.fields y x = 0 →
                ∀ y' x', Adj y x y' x' → y' < h → x' < w →
                  toIdx w y' x' ∈
                    ((ns.foldl (fun r p => visit w h fuel r.1 r.2 p.1 p.2) r)).1 := by
            intro ns
            induction ns with
            | nil =>
              intro r _ _ y x _ _ hmem hnv _ _ _ _ _ _
              exact absurd hmem hnv
            | cons p ns ihn =>
              intro r hfuel2 hfields y x hy hx hmem hnv h0 y' x' hadj hy' hx'
              rw [List.foldl_cons] at hmem ⊢
              by_cases hstep : toIdx w y x ∈ (visit w h fuel r.1 r.2 p.1 p.2).1
              · -- newly added by this nested call
                have hcall := (ih r.1 r.2 p.1 p.2 hfuel2).2 y x hy hx hstep hnv
                  (by rw [hfields]; exact h0) y' x' hadj hy' hx'
                exact foldVisit_subset w h fuel ns _ hcall
              · -- added by a later call
                have hsubr : r.1 ⊆ (visit w h fuel r.1 r.2 p.1 p.2).1 :=
                  visit_subset w h fuel r.1 r.2 p.1 p.2
                refine ihn (visit w h fuel r.1 r.2 p.1 p.2) ?_ ?_ y x hy hx
                  hmem hstep h0 y' x' hadj hy' hx'
                · have := bcard_mono w h hsubr
                  omega
                · rw [(visit_coreFrame w h fuel r.1 r.2 p.1 p.2).1]
                  exact hfields
          constructor
          · intro _
            rw [hres]
            exact foldVisit_subset w h fuel _ _ (List.mem_cons_self _ _)
          · intro y x hy hx hmem hnv h0 y' x' hadj hy' hx'
            rw [hres] at hmem ⊢
            by_cases hstart : toIdx w y x ∈ ((j.toNat * w + i.toNat) :: v)
            · -- the cell is the start cell itself
              have hyx : (y, x) = (j.toNat, i.toNat) := by
                rcases List.mem_cons.mp hstart with hc | hc
                · have heq := toIdx_inj ((Nat.zero_le x).trans_lt hx) hx hin
                    (hc.trans hidx.symm)
                  exact Prod.ext heq.1 heq.2
                · exact absurd hc hnv
              have hy1 : y = j.toNat := congrArg Prod.fst hyx
              have hx1 : x = i.toNat := congrArg Prod.snd hyx
              subst hy1
              subst hx1
              -- each in-bounds 4-neighbour is the start of one nested call
              have hfuel1 : w * h + 1 ≤ fuel +
                  bcard w h ((j.toNat * w + i.toNat) :: v) := by
                omega
              -- expand the fold into its four sequential steps
              rw [show ([((i - 1 : Int), j), (i + 1, j), (i, j - 1),
                  (i, j + 1)] : List (Int × Int)) =
                  [((i - 1 : Int), j)] ++ [((i + 1 : Int), j)] ++
                  [((i : Int), j - 1)] ++ [((i : Int), j + 1)] from rfl]
              rw [List.foldl_append, List.foldl_append, List.foldl_append]
              simp only [List.foldl_cons, List.foldl_nil]
              set r0 : List Nat × GameState :=
                ((j.toNat * w + i.toNat) :: v,
                  (revealField s i.toNat j.toNat).2) with hr0
              set r1 := visit w h fuel r0.1 r0.2 (i - 1) j with hr1
              set r2 := visit w h fuel r1.1 r1.2 (i + 1) j with hr2
              set r3 := visit w h fuel r2.1 r2.2 i (j - 1) with hr3
              have hsub01 : r0.1 ⊆ r1.1 := visit_subset w h fuel r0.1 r0.2 _ _
              have hsub12 : r1.1 ⊆ r2.1 := visit_subset w h fuel r1.1 r1.2 _ _
              have hsub23 : r2.1 ⊆ r3.1 := visit_subset w h fuel r2.1 r2.2 _ _
              have hsub34 : r3.1 ⊆ (visit w h fuel r3.1 r3.2 i (j + 1)).1 :=
                visit_subset w h fuel r3.1 r3.2 _ _
              have hfuelr0 : w * h + 1 ≤ fuel + bcard w h r0.1 := hfuel1
              have hfuelr1 : w * h + 1 ≤ fuel + bcard w h r1.1 := by
                have := bcard_mono w h hsub01
                omega
              have hfuelr2 : w * h + 1 ≤ fuel + bcard w h r2.1 := by
                have := bcard_mono w h hsub12
                omega
              have hfuelr3 : w * h + 1 ≤ fuel + bcard w h r3.1 := by
                have := bcard_mono w h hsub23
                omega
              -- case on which neighbour (y', x') is
              rcases hadj with ⟨hyy, hxx⟩ | ⟨hxx, hyy⟩
              · rcases hxx with hxm | hxp
                · -- x' = i.toNat - 1 : first call, target (i-1, j)
                  have hnb1 : ¬((i - 1 : Int) < 0 ∨ (w : Int) ≤ i - 1 ∨
                      j < 0 ∨ (h : Int) ≤ j) := by
                    push_neg at hb ⊢
                    omega
                  have hmem1 := (ih r0.1 r0.2 (i - 1) j hfuelr0).1 hnb1
                  have hcoord : j.toNat * w + (i - 1).toNat = toIdx w y' x' := by
                    unfold toIdx
                    push_neg at hb
                    have hxw : x' = (i - 1).toNat := by omega
                    rw [hyy, hxw]
                  rw [hcoord] at hmem1
                  rw [← hr1] at hmem1
                  exact hsub34 (hsub23 (hsub12 hmem1))
                · -- x' = i.toNat + 1 : second call, target (i+1, j)
                  have hnb2 : ¬((i + 1 : Int) < 0 ∨ (w : Int) ≤ i + 1 ∨
                      j < 0 ∨ (h : Int) ≤ j) := by
                    push_neg at hb ⊢
                    omega
                  have hmem2 := (ih r1.1 r1.2 (i + 1) j hfuelr1).1 hnb2
                  have hcoord : j.toNat * w + (i + 1).toNat = toIdx w y' x' := by
                    unfold toIdx
                    push_neg at hb
                    have hxw : x' = (i + 1).toNat := by omega
                    rw [hyy, hxw]
                  rw [hcoord] at hmem2
                  rw [← hr2] at hmem2
                  exact hsub34 (hsub23 hmem2)
              · rcases hyy with hym | hyp
                · -- y' = j.toNat - 1 : third call, target (i, j-1)
                  have hnb3 : ¬((i : Int) < 0 ∨ (w : Int) ≤ i ∨
                      (j - 1 : Int) < 0 ∨ (h : Int) ≤ j - 1) := by
                    push_neg at hb ⊢
                    omega
                  have hmem3 := (ih r2.1 r2.2 i (j - 1) hfuelr2).1 hnb3
                  have hcoord : (j - 1).toNat * w + i.toNat = toIdx w y' x' := by
                    unfold toIdx
                    push_neg at hb
                    have hyw : y' = (j - 1).toNat := by omega
                    rw [hyw, hxx]
                  rw [hcoord] at hmem3
                  rw [← hr3] at hmem3
                  exact hsub34 hmem3
                · -- y' = j.toNat + 1 : fourth call, target (i, j+1)
                  have hnb4 : ¬((i : Int) < 0 ∨ (w : Int) ≤ i ∨
                      (j + 1 : Int) < 0 ∨ (h : Int) ≤ j + 1) := by
                    push_neg at hb ⊢
                    omega
                  have hmem4 := (ih r3.1 r3.2 i (j + 1) hfuelr3).1 hnb4
                  have hcoord : (j + 1).toNat * w + i.toNat = toIdx w y' x' := by
                    unfold toIdx
                    push_neg at hb
                    have hyw : y' = (j + 1).toNat := by omega
                    rw [hyw, hxx]
                  rw [hcoord] at hmem4
                  exact hmem4
            · -- the cell was newly added by the fold
              refine hfoldclosed _ _ ?_ (revealField_fields s i.toNat j.toNat)
                y x hy hx hmem hstart h0 y' x' hadj hy' hx'
              dsimp only
              omega

/-! ## Reachability: the specification of the flood fill -/

/-- Cells reachable from the start cell `(y0, x0)`: the start itself, plus
anything 4-adjacent to an already reached cell of value `0`.  For a start cell
of value `0` this is exactly the maximal 4-connected region of zero cells
containing the start together with its border of nonzero cells. -/
inductive Reach (w h : Nat) (F : Cell) (y0 x0 : Nat) : Nat → Nat → Prop where
  | refl : y0 < h → x0 < w → Reach w h F y0 x0 y0 x0
  | step {y x y' x' : Nat} : Reach w h F y0 x0 y x → F y x = 0 →
      Adj y x y' x' → y' < h → x' < w → Reach w h F y0 x0 y' x'

lemma reach_bounds {w h : Nat} {F : Cell} {y0 x0 y x : Nat}
    (hr : Reach w h F y0 x0 y x) : y < h ∧ x < w := by
  induction hr with
  | refl hy hx => exact ⟨hy, hx⟩
  | step _ _ _ hy hx _ => exact ⟨hy, hx⟩

/-- Reachability from an in-bounds zero neighbour extends reachability. -/
lemma reach_glue {w h : Nat} {F : Cell} {y0 x0 yn xn y x : Nat}
    (hy0 : y0 < h) (hx0 : x0 < w) (hF : F y0 x0 = 0) (hadj : Adj y0 x0 yn xn)
    (hr : Reach w h F yn xn y x) : Reach w h F y0 x0 y x := by
  induction hr with
  | refl hyn hxn => exact Reach.step (Reach.refl hy0 hx0) hF hadj hyn hxn
  | step _ hF2 hadj2 hy2 hx2 ihg => exact Reach.step ihg hF2 hadj2 hy2 hx2

/-- Soundness: every index the flood fill adds to the visited set is the index
of a cell reachable from the start cell. -/
lemma visit_sound (w h fuel : Nat) :
    ∀ (v : List Nat) (s : GameState) (i j : Int),
      ∀ a ∈ (visit w h fuel v s i j).1, a ∈ v ∨
        (¬(i < 0 ∨ (w : Int) ≤ i ∨ j < 0 ∨ (h : Int) ≤ j) ∧
          ∃ y x, y < h ∧ x < w ∧ a = toIdx w y x ∧
            Reach w h s.fields j.toNat i.toNat y x) := by
  induction fuel with
  | zero => intro v s i j a ha; exact Or.inl ha
  | succ fuel ih =>
    intro v s i j
    by_cases hb : i < 0 ∨ (w : Int) ≤ i ∨ j < 0 ∨ (h : Int) ≤ j
    · have hres : (visit w h (fuel + 1) v s i j).1 = v := by
        simp only [visit]
        rw [if_pos hb]
      rw [hres]
      intro a ha
      exact Or.inl ha
    · have hjn : j.toNat < h := by push_neg at hb; omega
      have hin : i.toNat < w := by push_neg at hb; omega
      by_cases hv : (j.toNat * w + i.toNat) ∈ v
      · have hres : (visit w h (fuel + 1) v s i j).1 = v := by
          simp only [visit]
          rw [if_neg hb, if_pos hv]
        rw [hres]
        intro a ha
        exact Or.inl ha
      · by_cases hz : (revealField s i.toNat j.toNat).2.fields j.toNat i.toNat
            ≠ 0
        · have hres : (visit w h (fuel + 1) v s i j).1 =
              (j.toNat * w + i.toNat) :: v := by
            simp only [visit]
            rw [if_neg hb, if_neg hv, if_pos hz]
          rw [hres]
          intro a ha
          rcases List.mem_cons.mp ha with hc | hc
          · exact Or.inr ⟨hb, j.toNat, i.toNat, hjn, hin, hc,
              Reach.refl hjn hin⟩
          · exact Or.inl hc
        · have hz' : s.fields j.toNat i.toNat = 0 := by
            rw [revealField_fields] at hz
            push_neg at hz
            exact hz
          have hres : (visit w h (fuel + 1) v s i j).1 =
              (([((i - 1 : Int), j), (i + 1, j), (i, j - 1), (i, j + 1)]).foldl
                (fun r p => visit w h fuel r.1 r.2 p.1 p.2)
                ((j.toNat * w + i.toNat) :: v,
                  (revealField s i.toNat j.toNat).2)).1 := by
            simp only [visit]
            rw [if_neg hb, if_neg hv, if_neg hz]
          rw [hres]
          have hfoldsound : ∀ (ns : List (Int × Int))
              (r : List Nat × GameState),
              (∀ p ∈ ns, ¬(p.1 < 0 ∨ (w : Int) ≤ p.1 ∨ p.2 < 0 ∨
                  (h : Int) ≤ p.2) → Adj j.toNat i.toNat p.2.toNat p.1.toNat) →
              (∀ a ∈ r.1, a ∈ v ∨ ∃ y x, y < h ∧ x < w ∧ a = toIdx w y x ∧
                Reach w h s.fields j.toNat i.toNat y x) →
              r.2.fields = s.fields →
              ∀ a ∈ ((ns.foldl (fun r p => visit w h fuel r.1 r.2 p.1 p.2) r)).1,
                a ∈ v ∨ ∃ y x, y < h ∧ x < w ∧ a = toIdx w y x ∧
                  Reach w h s.fields j.toNat i.toNat y x := by
            intro ns
            induction ns with
            | nil => intro r _ hInv _ a ha; exact hInv a ha
            | cons p ns ihn =>
              intro r hns hInv hfields a ha
              rw [List.foldl_cons] at ha
              refine ihn (visit w h fuel r.1 r.2 p.1 p.2)
                (fun q hq => hns q (List.mem_cons_of_mem _ hq)) ?_ ?_ a ha
              · intro b hbmem
                rcases ih r.1 r.2 p.1 p.2 b hbmem with hc | ⟨hpb, y, x, hy, hx,
                  hbeq, hreach⟩
                · exact hInv b hc
                · rw [hfields] at hreach
                  exact Or.inr ⟨y, x, hy, hx, hbeq,
                    reach_glue hjn hin hz' (hns p (List.mem_cons_self _ _) hpb)
                      hreach⟩
              · rw [(visit_coreFrame w h fuel r.1 r.2 p.1 p.2).1]
                exact hfields
          have hns0 : ∀ p ∈ ([((i - 1 : Int), j), (i + 1, j), (i, j - 1),
              (i, j + 1)] : List (Int × Int)),
              ¬(p.1 < 0 ∨ (w : Int) ≤ p.1 ∨ p.2 < 0 ∨ (h : Int) ≤ p.2) →
              Adj j.toNat i.toNat p.2.toNat p.1.toNat := by
            intro p hp hpb
            push_neg at hpb
            have hb' : ¬(i < 0 ∨ (w : Int) ≤ i ∨ j < 0 ∨ (h : Int) ≤ j) := hb
            push_neg at hb'
            simp only [List.mem_cons, List.not_mem_nil, or_false] at hp
            rcases hp with hq | hq | hq | hq
            · subst hq
              refine Or.inl ⟨rfl, Or.inl ?_⟩
              have h1 : (0 : Int) ≤ i - 1 := hpb.1
              show ((i - 1 : Int)).toNat + 1 = i.toNat
              omega
            · subst hq
              refine Or.inl ⟨rfl, Or.inr ?_⟩
              have h1 : (0 : Int) ≤ i := hb'.1
              show ((i + 1 : Int)).toNat = i.toNat + 1
              omega
            · subst hq
              refine Or.inr ⟨rfl, Or.inl ?_⟩
              have h1 : (0 : Int) ≤ j - 1 := hpb.2.2.1
              show ((j - 1 : Int)).toNat + 1 = j.toNat
              omega
            · subst hq
              refine Or.inr ⟨rfl, Or.inr ?_⟩
              have h1 : (0 : Int) ≤ j := hb'.2.2.1
              show ((j + 1 : Int)).toNat = j.toNat + 1
              omega
          have hInv0 : ∀ b ∈ ((j.toNat * w + i.toNat) :: v), b ∈ v ∨
              ∃ y x, y < h ∧ x < w ∧ b = toIdx w y x ∧
                Reach w h s.fields j.toNat i.toNat y x := by
            intro b hbmem
            rcases List.mem_cons.mp hbmem with hc | hc
            · exact Or.inr ⟨j.toNat, i.toNat, hjn, hin, hc, Reach.refl hjn hin⟩
            · exact Or.inl hc
          intro a ha
          rcases hfoldsound _ _ hns0 hInv0
            (revealField_fields s i.toNat j.toNat) a ha with
            hc | ⟨y, x, hy, hx, haeq, hreach⟩
          · exact Or.inl hc
          · exact Or.inr ⟨hb, y, x, hy, hx, haeq, hreach⟩

/-- Completeness: with full fuel and an empty initial visited set, every
reachable cell is visited. -/
lemma visit_complete (w h : Nat) (s : GameState) (y0 x0 : Nat) :
    ∀ y x, Reach w h s.fields y0 x0 y x →
      toIdx w y x ∈
        (visit w h (w * h + 1) [] s (x0 : Int) (y0 : Int)).1 := by
  have hb0 : bcard w h ([] : List Nat) = 0 := by
    simp [bcard]
  have hfuel : w * h + 1 ≤ (w * h + 1) + bcard w h ([] : List Nat) := by omega
  have hclosed := visit_closed w h (w * h + 1) [] s (x0 : Int) (y0 : Int) hfuel
  intro y x hr
  induction hr with
  | refl hy hx =>
    have hnb : ¬((x0 : Int) < 0 ∨ (w : Int) ≤ (x0 : Int) ∨ (y0 : Int) < 0 ∨
        (h : Int) ≤ (y0 : Int)) := by
      push_neg
      refine ⟨by omega, by omega, by omega, by omega⟩
    have := hclosed.1 hnb
    have hco : ((y0 : Int)).toNat * w + ((x0 : Int)).toNat = toIdx w y0 x0 := by
      rw [Int.toNat_natCast, Int.toNat_natCast]
      rfl
    rw [hco] at this
    exact this
  | step hr2 hF hadj hy' hx' ihc =>
    have hbnd := reach_bounds hr2
    exact hclosed.2 _ _ hbnd.1 hbnd.2 ihc (List.not_mem_nil _) hF _ _ hadj
      hy' hx'

/-- The flood fill preserves the `fieldsLeft` accounting invariant. -/
lemma visit_fieldsLeftInv (w h fuel : Nat) :
    ∀ (v : List Nat) (s : GameState) (i j : Int),
      s.width = w → s.height = h → FieldsLeftInv s →
      FieldsLeftInv (visit w h fuel v s i j).2 := by
  induction fuel with
  | zero => intro v s i j _ _ hInv; exact hInv
  | succ fuel ih =>
    intro v s i j hW hH hInv
    have hfold : ∀ (ns : List (Int × Int)) (r : List Nat × GameState),
        r.2.width = w → r.2.height = h → FieldsLeftInv r.2 →
        FieldsLeftInv
          ((ns.foldl (fun r p => visit w h fuel r.1 r.2 p.1 p.2) r)).2 := by
      intro ns
      induction ns with
      | nil => intro r _ _ hr; exact hr
      | cons p ns ihn =>
        intro r hrW hrH hr
        rw [List.foldl_cons]
        have hcf := visit_coreFrame w h fuel r.1 r.2 p.1 p.2
        exact ihn _ (hcf.2.1.trans hrW) (hcf.2.2.1.trans hrH)
          (ih r.1 r.2 p.1 p.2 hrW hrH hr)
    simp only [visit]
    split
    · exact hInv
    · rename_i hbound
      push_neg at hbound
      have hjn : j.toNat < h := by omega
      have hin : i.toNat < w := by omega
      have hInv1 : FieldsLeftInv (revealField s i.toNat j.toNat).2 :=
        revealField_fieldsLeftInv (by omega) (by omega) hInv
      split
      · exact hInv
      · split
        · exact hInv1
        · refine hfold _ _ ?_ ?_ hInv1
          · exact (revealField_width s i.toNat j.toNat).trans hW
          · exact (revealField_height s i.toNat j.toNat).trans hH

/-! ## Flag accounting -/

/-- Number of currently flagged on-board cells. -/
def flaggedCount (s : GameState) : Nat :=
  ((Finset.range s.height ×ˢ Finset.range s.width).filter
    (fun p => s.flagged p.1 p.2 = true)).card

/-- `state.minesLeft` equals the mine total minus the flagged-cell count. -/
def MinesLeftInv (s : GameState) : Prop :=
  s.minesLeft = (s.minesCount : Int) - (flaggedCount s : Int)

lemma mem_flaggedSet {s : GameState} {p : Nat × Nat} :
    p ∈ (Finset.range s.height ×ˢ Finset.range s.width).filter
      (fun p => s.flagged p.1 p.2 = true) ↔
    p.1 < s.height ∧ p.2 < s.width ∧ s.flagged p.1 p.2 = true := by
  rw [Finset.mem_filter, Finset.mem_product, Finset.mem_range, Finset.mem_range]
  tauto

lemma handleFieldFlag_of_revealed {s : GameState} {x y : Nat}
    (h : s.revealed y x = true) : handleFieldFlag s x y = s := by
  unfold handleFieldFlag
  rw [if_pos h]

lemma handleFieldFlag_minesLeft {s : GameState} {x y : Nat}
    (h : s.revealed y x = false) :
    (handleFieldFlag s x y).minesLeft =
      s.minesLeft + (if s.flagged y x = true then 1 else -1) := by
  unfold handleFieldFlag
  rw [if_neg (by rw [h]; exact Bool.false_ne_true)]
  dsimp only
  cases hf : s.flagged y x <;> simp [hf]

lemma handleFieldFlag_minesLeftInv {s : GameState} {x y : Nat}
    (hx : x < s.width) (hy : y < s.height) (hInv : MinesLeftInv s) :
    MinesLeftInv (handleFieldFlag s x y) := by
  by_cases hrev : s.revealed y x = true
  · rw [handleFieldFlag_of_revealed hrev]
    exact hInv
  · have hrev' : s.revealed y x = false := by
      revert hrev; cases s.revealed y x <;> simp
    unfold MinesLeftInv at hInv ⊢
    unfold handleFieldFlag
    rw [if_neg (by rw [hrev']; exact Bool.false_ne_true)]
    dsimp only
    cases hf : s.flagged y x
    · -- newly flagging: count grows by one
      have hset : (Finset.range s.height ×ˢ Finset.range s.width).filter
          (fun p => (setMap s.flagged y x (!s.flagged y x)) p.1 p.2 = true) =
          insert ((y, x) : Nat × Nat)
            ((Finset.range s.height ×ˢ Finset.range s.width).filter
              (fun p => s.flagged p.1 p.2 = true)) := by
        apply Finset.ext
        intro p
        rw [Finset.mem_insert, Finset.mem_filter, Finset.mem_product,
          Finset.mem_range, Finset.mem_range, Finset.mem_filter,
          Finset.mem_product, Finset.mem_range, Finset.mem_range]
        by_cases hc : p.1 = y ∧ p.2 = x
        · have hp : p = (y, x) := Prod.ext hc.1 hc.2
          rw [setMap, if_pos hc, hf]
          simp [hp, hy, hx]
        · rw [setMap, if_neg hc]
          constructor
          · intro hmem
            exact Or.inr hmem
          · intro hmem
            rcases hmem with hmem | hmem
            · rw [hmem] at hc
              exact absurd ⟨rfl, rfl⟩ hc
            · exact hmem
      have hnm : ((y, x) : Nat × Nat) ∉
          (Finset.range s.height ×ˢ Finset.range s.width).filter
            (fun p => s.flagged p.1 p.2 = true) := by
        intro hc
        have := (mem_flaggedSet.mp hc).2.2
        rw [hf] at this
        exact Bool.false_ne_true this
      unfold flaggedCount
      dsimp only
      rw [hf] at hset
      rw [hset, Finset.card_insert_of_not_mem hnm]
      push_cast
      rw [hInv]
      unfold flaggedCount
      push_cast
      have hite : (if (!false) = true then (-1 : Int) else 1) = -1 := by decide
      rw [hite]
      ring
    · -- unflagging: count shrinks by one
      have hmemS : ((y, x) : Nat × Nat) ∈
          (Finset.range s.height ×ˢ Finset.range s.width).filter
            (fun p => s.flagged p.1 p.2 = true) :=
        mem_flaggedSet.mpr ⟨hy, hx, hf⟩
      have hset : (Finset.range s.height ×ˢ Finset.range s.width).filter
          (fun p => (setMap s.flagged y x (!s.flagged y x)) p.1 p.2 = true) =
          ((Finset.range s.height ×ˢ Finset.range s.width).filter
            (fun p => s.flagged p.1 p.2 = true)).erase ((y, x) : Nat × Nat) := by
        apply Finset.ext
        intro p
        rw [Finset.mem_erase, Finset.mem_filter, Finset.mem_product,
          Finset.mem_range, Finset.mem_range, Finset.mem_filter,
          Finset.mem_product, Finset.mem_range, Finset.mem_range]
        by_cases hc : p.1 = y ∧ p.2 = x
        · have hp : p = (y, x) := Prod.ext hc.1 hc.2
          rw [setMap, if_pos hc, hf]
          simp [hp]
        · rw [setMap, if_neg hc]
          constructor
          · intro hmem
            refine ⟨?_, hmem⟩
            intro hp
            rw [hp] at hc
            exact hc ⟨rfl, rfl⟩
          · rintro ⟨_, hmem⟩
            exact hmem
      have hpos : 0 < flaggedCount s := by
        unfold flaggedCount
        exact Finset.card_pos.mpr ⟨_, hmemS⟩
      unfold flaggedCount
      dsimp only
      rw [hf] at hset
      rw [hset, Finset.card_erase_of_mem hmemS]
      unfold flaggedCount at hInv hpos
      push_cast [Nat.cast_sub (by omega : 1 ≤ ((Finset.range s.height ×ˢ
        Finset.range s.width).filter (fun p => s.flagged p.1 p.2 = true)).card)]
      rw [hInv]
      push_cast
      have hite : (if (!true) = true then (-1 : Int) else 1) = 1 := by decide
      rw [hite]
      ring

lemma handleFieldFlag_frame (s : GameState) (x y : Nat) :
    (handleFieldFlag s x y).fields = s.fields ∧
    (handleFieldFlag s x y).width = s.width ∧
    (handleFieldFlag s x y).height = s.height ∧
    (handleFieldFlag s x y).minesCount = s.minesCount ∧
    (handleFieldFlag s x y).isGameOver = s.isGameOver ∧
    (handleFieldFlag s x y).restartClass = s.restartClass ∧
    (handleFieldFlag s x y).fieldsLeft = s.fieldsLeft ∧
    (handleFieldFlag s x y).revealed = s.revealed := by
  unfold handleFieldFlag
  split
  · exact ⟨rfl, rfl, rfl, rfl, rfl, rfl, rfl, rfl⟩
  · exact ⟨rfl, rfl, rfl, rfl, rfl, rfl, rfl, rfl⟩

lemma handleFieldFlag_fieldsLeftInv {s : GameState} {x y : Nat}
    (hInv : FieldsLeftInv s) : FieldsLeftInv (handleFieldFlag s x y) := by
  have hfr := handleFieldFlag_frame s x y
  unfold FieldsLeftInv at hInv ⊢
  have hset : hiddenNonMine (handleFieldFlag s x y) = hiddenNonMine s := by
    apply Finset.ext
    intro p
    rw [mem_hiddenNonMine, mem_hiddenNonMine, hfr.1, hfr.2.1, hfr.2.2.1,
      hfr.2.2.2.2.2.2.2]
  rw [hset, hfr.2.2.2.2.2.2.1]
  exact hInv

/-! ## The reveal operation -/

lemma handleFieldReveal_of_flagged {s : GameState} {x y : Nat}
    (h : s.flagged y x = true) : handleFieldReveal s x y = s := by
  unfold handleFieldReveal
  rw [if_pos h]

lemma handleFieldReveal_minesLeft (s : GameState) (x y : Nat) :
    (handleFieldReveal s x y).minesLeft = s.minesLeft := by
  unfold handleFieldReveal
  split
  · rfl
  · dsimp only
    have hwon : ∀ t : GameState, t.minesLeft = s.minesLeft →
        (if t.fieldsLeft = 0 then
          gameOver { t with restartClass := RestartClass.won } else t).minesLeft
          = s.minesLeft := by
      intro t ht
      split
      · exact (gameOver_frame _).2.2.2.2.1.trans ht
      · exact ht
    refine hwon _ ?_
    split
    · split
      · exact (gameOver_frame _).2.2.2.2.1.trans
          (revealField_minesLeft s x y)
      · exact revealField_minesLeft s x y
    · split
      · exact (visit_coreFrame _ _ _ _ _ _ _).2.2.2.2.1
      · exact revealField_minesLeft s x y

lemma handleFieldReveal_minesCount (s : GameState) (x y : Nat) :
    (handleFieldReveal s x y).minesCount = s.minesCount := by
  unfold handleFieldReveal
  split
  · rfl
  · dsimp only
    have hwon : ∀ t : GameState, t.minesCount = s.minesCount →
        (if t.fieldsLeft = 0 then
          gameOver { t with restartClass := RestartClass.won } else t).minesCount
          = s.minesCount := by
      intro t ht
      split
      · exact (gameOver_frame _).2.2.2.1.trans ht
      · exact ht
    refine hwon _ ?_
    split
    · split
      · exact (gameOver_frame _).2.2.2.1.trans
          (revealField_minesCount s x y)
      · exact revealField_minesCount s x y
    · split
      · exact (visit_coreFrame _ _ _ _ _ _ _).2.2.2.1
      · exact revealField_minesCount s x y

lemma handleFieldReveal_fields (s : GameState) (x y : Nat) :
    (handleFieldReveal s x y).fields = s.fields := by
  unfold handleFieldReveal
  split
  · rfl
  · dsimp only
    have hwon : ∀ t : GameState, t.fields = s.fields →
        (if t.fieldsLeft = 0 then
          gameOver { t with restartClass := RestartClass.won } else t).fields
          = s.fields := by
      intro t ht
      split
      · exact (gameOver_frame _).1.trans ht
      · exact ht
    refine hwon _ ?_
    split
    · split
      · exact (gameOver_frame _).1.trans (revealField_fields s x y)
      · exact revealField_fields s x y
    · split
      · exact (visit_coreFrame _ _ _ _ _ _ _).1
      · exact revealField_fields s x y

lemma handleFieldReveal_width (s : GameState) (x y : Nat) :
    (handleFieldReveal s x y).width = s.width := by
  unfold handleFieldReveal
  split
  · rfl
  · dsimp only
    have hwon : ∀ t : GameState, t.width = s.width →
        (if t.fieldsLeft = 0 then
          gameOver { t with restartClass := RestartClass.won } else t).width
          = s.width := by
      intro t ht
      split
      · exact (gameOver_frame _).2.1.trans ht
      · exact ht
    refine hwon _ ?_
    split
    · split
      · exact (gameOver_frame _).2.1.trans (revealField_width s x y)
      · exact revealField_width s x y
    · split
      · exact (visit_coreFrame _ _ _ _ _ _ _).2.1
      · exact revealField_width s x y

lemma handleFieldReveal_height (s : GameState) (x y : Nat) :
    (handleFieldReveal s x y).height = s.height := by
  unfold handleFieldReveal
  split
  · rfl
  · dsimp only
    have hwon : ∀ t : GameState, t.height = s.height →
        (if t.fieldsLeft = 0 then
          gameOver { t with restartClass := RestartClass.won } else t).height
          = s.height := by
      intro t ht
      split
      · exact (gameOver_frame _).2.2.1.trans ht
      · exact ht
    refine hwon _ ?_
    split
    · split
      · exact (gameOver_frame _).2.2.1.trans (revealField_height s x y)
      · exact revealField_height s x y
    · split
      · exact (visit_coreFrame _ _ _ _ _ _ _).2.2.1
      · exact revealField_height s x y

lemma fieldsLeftInv_restartClass (s : GameState) (c : RestartClass) :
    FieldsLeftInv { s with restartClass := c } ↔ FieldsLeftInv s :=
  Iff.rfl

lemma handleFieldReveal_fieldsLeftInv {s : GameState} {x y : Nat}
    (hx : x < s.width) (hy : y < s.height) (hInv : FieldsLeftInv s) :
    FieldsLeftInv (handleFieldReveal s x y) := by
  unfold handleFieldReveal
  split
  · exact hInv
  · dsimp only
    have hwon : ∀ t : GameState, FieldsLeftInv t →
        FieldsLeftInv (if t.fieldsLeft = 0 then
          gameOver { t with restartClass := RestartClass.won } else t) := by
      intro t ht
      split
      · exact gameOver_fieldsLeftInv ((fieldsLeftInv_restartClass t _).mpr ht)
      · exact ht
    refine hwon _ ?_
    split
    · split
      · exact gameOver_fieldsLeftInv ((fieldsLeftInv_restartClass _ _).mpr
          (revealField_fieldsLeftInv hx hy hInv))
      · exact revealField_fieldsLeftInv hx hy hInv
    · split
      · exact visit_fieldsLeftInv s.width s.height _ [] s x y rfl rfl hInv
      · exact revealField_fieldsLeftInv hx hy hInv

/-! ## The top-level mouse handler -/

lemma mousedown_over {s : GameState} (rb : Bool) (x y : Nat)
    (h : s.isGameOver = true) : mousedown s rb x y = s := by
  unfold mousedown
  rw [if_pos h]

lemma mousedown_flagged_noop {s : GameState} {x y : Nat}
    (h : s.flagged y x = true) : mousedown s false x y = s := by
  unfold mousedown
  split
  · rfl
  · rw [if_neg Bool.false_ne_true]
    exact handleFieldReveal_of_flagged h

lemma mousedown_reveal_minesLeft (s : GameState) (x y : Nat) :
    (mousedown s false x y).minesLeft = s.minesLeft := by
  unfold mousedown
  split
  · rfl
  · rw [if_neg Bool.false_ne_true]
    exact handleFieldReveal_minesLeft s x y

lemma mousedown_fieldsLeftInv {s : GameState} (rb : Bool) {x y : Nat}
    (hx : x < s.width) (hy : y < s.height) (hInv : FieldsLeftInv s) :
    FieldsLeftInv (mousedown s rb x y) := by
  unfold mousedown
  split
  · exact hInv
  · split
    · exact handleFieldFlag_fieldsLeftInv hInv
    · exact handleFieldReveal_fieldsLeftInv hx hy hInv

lemma mousedown_flag_minesLeftInv {s : GameState} {x y : Nat}
    (hx : x < s.width) (hy : y < s.height) (hInv : MinesLeftInv s) :
    MinesLeftInv (mousedown s true x y) := by
  unfold mousedown
  split
  · exact hInv
  · rw [if_pos rfl]
    exact handleFieldFlag_minesLeftInv hx hy hInv

/-! ## The cascade seen through `Reach` -/

lemma revealEmptyArea_coreFrame (s : GameState) (x y : Nat) :
    CoreFrame s (revealEmptyArea s x y) := by
  unfold revealEmptyArea
  exact visit_coreFrame _ _ _ _ _ _ _

lemma revealEmptyArea_reveals {s : GameState} {x y : Nat} :
    ∀ y' x', Reach s.width s.height s.fields y x y' x' →
      (revealEmptyArea s x y).revealed y' x' = true := by
  intro y' x' hr
  have hbnd := reach_bounds hr
  have hmem := visit_complete s.width s.height s y x y' x' hr
  unfold revealEmptyArea
  exact visit_visited_revealed s.width s.height _ [] s (x : Int) (y : Int)
    hbnd.1 hbnd.2 hmem (List.not_mem_nil _)

lemma reach_of_mem_cascade {s : GameState} {x y y' x' : Nat}
    (hy' : y' < s.height) (hx' : x' < s.width)
    (hmem : toIdx s.width y' x' ∈
      (visit s.width s.height (s.width * s.height + 1) [] s
        (x : Int) (y : Int)).1) :
    Reach s.width s.height s.fields y x y' x' := by
  rcases visit_sound s.width s.height _ [] s (x : Int) (y : Int) _ hmem with
    hc | ⟨_, yc, xc, hyc, hxc, heq, hreach⟩
  · exact absurd hc (List.not_mem_nil _)
  · obtain ⟨h1, h2⟩ := toIdx_inj ((Nat.zero_le x').trans_lt hx') hx' hxc heq
    rw [Int.toNat_natCast, Int.toNat_natCast] at hreach
    rw [h1, h2]
    exact hreach

lemma revealEmptyArea_not_reached_unchanged {s : GameState} {x y : Nat} :
    ∀ y' x', ¬Reach s.width s.height s.fields y x y' x' →
      (revealEmptyArea s x y).revealed y' x' = s.revealed y' x' ∧
      (revealEmptyArea s x y).flagged y' x' = s.flagged y' x' := by
  intro y' x' hnr
  unfold revealEmptyArea
  by_cases hbnd : y' < s.height ∧ x' < s.width
  · refine visit_unvisited_untouched _ _ _ [] s _ _ hbnd.1 hbnd.2 (Or.inr ?_)
    intro hmem
    exact hnr (reach_of_mem_cascade hbnd.1 hbnd.2 hmem)
  · refine visit_offboard_untouched _ _ _ [] s _ _ ?_
    omega

/-- The reveal handler at an unflagged zero cell is the cascade followed by
the win check. -/
lemma handleFieldReveal_zero {s : GameState} {x y : Nat}
    (hfl : s.flagged y x = false) (h0 : s.fields y x = 0) :
    handleFieldReveal s x y =
      (if (revealEmptyArea s x y).fieldsLeft = 0 then
        gameOver { revealEmptyArea s x y with restartClass := RestartClass.won }
      else revealEmptyArea s x y) := by
  unfold handleFieldReveal
  rw [hfl, h0]
  norm_num

/-- If some unrevealed non-mine cell lies outside the cascade region, the
cascade leaves `fieldsLeft` positive, so the win check does not fire. -/
lemma cascade_fieldsLeft_pos {s : GameState} {x y : Nat}
    (hInv : FieldsLeftInv s)
    (hout : ∃ y' x', y' < s.height ∧ x' < s.width ∧ s.fields y' x' ≠ -1 ∧
      s.revealed y' x' = false ∧
      ¬Reach s.width s.height s.fields y x y' x') :
    (revealEmptyArea s x y).fieldsLeft ≠ 0 := by
  obtain ⟨y', x', hy', hx', hnm, hhid, hnr⟩ := hout
  have hInv' : FieldsLeftInv (revealEmptyArea s x y) := by
    unfold revealEmptyArea
    exact visit_fieldsLeftInv _ _ _ [] s _ _ rfl rfl hInv
  have hcf := revealEmptyArea_coreFrame s x y
  have hmem : (y', x') ∈ hiddenNonMine (revealEmptyArea s x y) := by
    rw [mem_hiddenNonMine, hcf.2.2.1, hcf.2.1, hcf.1]
    refine ⟨hy', hx', hnm, ?_⟩
    rw [(revealEmptyArea_not_reached_unchanged y' x' hnr).1]
    exact hhid
  have hpos : 0 < (hiddenNonMine (revealEmptyArea s x y)).card :=
    Finset.card_pos.mpr ⟨_, hmem⟩
  rw [FieldsLeftInv] at hInv'
  omega

/-- Running the cascade a second time from the same cell changes nothing. -/
lemma revealEmptyArea_twice {s : GameState} {x y : Nat} :
    revealEmptyArea (revealEmptyArea s x y) x y = revealEmptyArea s x y := by
  have hcf := revealEmptyArea_coreFrame s x y
  show (visit (revealEmptyArea s x y).width (revealEmptyArea s x y).height
    ((revealEmptyArea s x y).width * (revealEmptyArea s x y).height + 1) []
    (revealEmptyArea s x y) (x : Int) (y : Int)).2 = revealEmptyArea s x y
  rw [hcf.2.1, hcf.2.2.1]
  refine visit_state_id s.width s.height _ [] (revealEmptyArea s x y)
    (x : Int) (y : Int) ?_
  intro y' x' hy' hx' hmem _
  have hvis : (visit s.width s.height (s.width * s.height + 1) []
      (revealEmptyArea s x y) (x : Int) (y : Int)).1 =
      (visit s.width s.height (s.width * s.height + 1) [] s
        (x : Int) (y : Int)).1 :=
    visit_congr _ _ _ [] (revealEmptyArea s x y) s (x : Int) (y : Int) hcf.1
  rw [hvis] at hmem
  show (visit s.width s.height (s.width * s.height + 1) [] s
    (x : Int) (y : Int)).2.revealed y' x' = true
  exact visit_visited_revealed s.width s.height _ [] s (x : Int) (y : Int)
    hy' hx' hmem (List.not_mem_nil _)

lemma revealField_fst_hidden {s : GameState} {x y : Nat}
    (hrev : s.revealed y x = false) : (revealField s x y).1 = true := by
  unfold revealField
  rw [if_neg (by rw [hrev]; exact Bool.false_ne_true)]
  dsimp only
  split <;> rfl

lemma mousedown_reveal_eq {s : GameState} (x y : Nat)
    (h : s.isGameOver = false) :
    mousedown s false x y = handleFieldReveal s x y := by
  unfold mousedown
  rw [if_neg (by rw [h]; exact Bool.false_ne_true), if_neg Bool.false_ne_true]

lemma wonCheck_isGameOver {t : GameState} (h : t.isGameOver = true) :
    (if t.fieldsLeft = 0 then
      gameOver { t with restartClass := RestartClass.won }
    else t).isGameOver = true := by
  split
  · exact (gameOver_frame _).2.2.2.2.2.1
  · exact h

/-- A second reveal click at the same cell has no further effect. -/
lemma mousedown_reveal_idem (s : GameState) (x y : Nat) (hx : x < s.width)
    (hy : y < s.height) :
    mousedown (mousedown s false x y) false x y = mousedown s false x y := by
  by_cases hov : s.isGameOver = true
  · rw [mousedown_over false x y hov, mousedown_over false x y hov]
  · have hov' : s.isGameOver = false := by
      revert hov; cases s.isGameOver <;> simp
    by_cases htov : (mousedown s false x y).isGameOver = true
    · exact mousedown_over false x y htov
    · have htov' : (mousedown s false x y).isGameOver = false := by
        revert htov; cases (mousedown s false x y).isGameOver <;> simp
      have ht : mousedown s false x y = handleFieldReveal s x y :=
        mousedown_reveal_eq x y hov'
      rw [mousedown_reveal_eq x y htov']
      by_cases hfl : s.flagged y x = true
      · have hts : mousedown s false x y = s := mousedown_flagged_noop hfl
        rw [hts]
        exact handleFieldReveal_of_flagged hfl
      · have hfl' : s.flagged y x = false := by
          revert hfl; cases s.flagged y x <;> simp
        by_cases hm : s.fields y x = -1
        · -- mine cell
          by_cases hrev : s.revealed y x = true
          · -- already revealed: `revealField` returns false, nothing happens
            have hr : revealField s x y = (false, s) :=
              revealField_of_revealed hrev
            have ht2 : mousedown s false x y =
                (if s.fieldsLeft = 0 then
                  gameOver { s with restartClass := RestartClass.won }
                else s) := by
              rw [ht]
              unfold handleFieldReveal
              dsimp only
              rw [if_neg (by rw [hfl']; exact Bool.false_ne_true), if_pos hm,
                hr, if_neg (show ¬(((false, s) : Bool × GameState).1 = true) from
                  Bool.false_ne_true)]
            have hfz : s.fieldsLeft ≠ 0 := by
              intro hc
              rw [ht2, if_pos hc, (gameOver_frame _).2.2.2.2.2.1] at htov'
              simp at htov'
            have ht3 : mousedown s false x y = s := by
              rw [ht2, if_neg hfz]
            rw [ht3]
            exact ht.symm.trans ht3
          · -- fresh mine: the first click already ended the game
            exfalso
            have hrev' : s.revealed y x = false := by
              revert hrev; cases s.revealed y x <;> simp
            have hfst : (revealField s x y).1 = true :=
              revealField_fst_hidden hrev'
            have ht2 : mousedown s false x y =
                (if (gameOver { (revealField s x y).2 with
                    restartClass := RestartClass.lost }).fieldsLeft = 0 then
                  gameOver { (gameOver { (revealField s x y).2 with
                      restartClass := RestartClass.lost }) with
                    restartClass := RestartClass.won }
                else gameOver { (revealField s x y).2 with
                    restartClass := RestartClass.lost }) := by
              rw [ht]
              unfold handleFieldReveal
              dsimp only
              rw [if_neg (by rw [hfl']; exact Bool.false_ne_true), if_pos hm,
                if_pos hfst]
            rw [ht2, wonCheck_isGameOver ((gameOver_frame _).2.2.2.2.2.1)]
              at htov'
            simp at htov'
        · by_cases h0 : s.fields y x = 0
          · -- zero cell: the cascade ran; running it again is a no-op
            have ht2 : mousedown s false x y =
                (if (revealEmptyArea s x y).fieldsLeft = 0 then
                  gameOver { revealEmptyArea s x y with
                    restartClass := RestartClass.won }
                else revealEmptyArea s x y) :=
              ht.trans (handleFieldReveal_zero hfl' h0)
            have hfz : (revealEmptyArea s x y).fieldsLeft ≠ 0 := by
              intro hc
              rw [ht2, if_pos hc, (gameOver_frame _).2.2.2.2.2.1] at htov'
              simp at htov'
            have ht3 : mousedown s false x y = revealEmptyArea s x y := by
              rw [ht2, if_neg hfz]
            rw [ht3]
            by_cases hufl : (revealEmptyArea s x y).flagged y x = true
            · exact handleFieldReveal_of_flagged hufl
            · have hufl' : (revealEmptyArea s x y).flagged y x = false := by
                revert hufl
                cases (revealEmptyArea s x y).flagged y x <;> simp
              have hu0 : (revealEmptyArea s x y).fields y x = 0 := by
                rw [(revealEmptyArea_coreFrame s x y).1]
                exact h0
              rw [handleFieldReveal_zero hufl' hu0, revealEmptyArea_twice,
                if_neg hfz]
          · -- plain numbered cell
            have ht2 : mousedown s false x y =
                (if (revealField s x y).2.fieldsLeft = 0 then
                  gameOver { (revealField s x y).2 with
                    restartClass := RestartClass.won }
                else (revealField s x y).2) := by
              rw [ht]
              unfold handleFieldReveal
              dsimp only
              rw [if_neg (by rw [hfl']; exact Bool.false_ne_true), if_neg hm,
                if_neg h0]
            have hfz : (revealField s x y).2.fieldsLeft ≠ 0 := by
              intro hc
              rw [ht2, if_pos hc, (gameOver_frame _).2.2.2.2.2.1] at htov'
              simp at htov'
            have ht3 : mousedown s false x y = (revealField s x y).2 := by
              rw [ht2, if_neg hfz]
            rw [ht3]
            have hurev : (revealField s x y).2.revealed y x = true :=
              revealField_revealed_own s x y
            have hufl' : (revealField s x y).2.flagged y x = false := by
              by_cases hrev : s.revealed y x = true
              · rw [revealField_of_revealed hrev]
                exact hfl'
              · exact revealField_flagged_self
                  (by revert hrev; cases s.revealed y x <;> simp)
            have huf : (revealField s x y).2.fields y x = s.fields y x :=
              congrFun (congrFun (revealField_fields s x y) y) x
            unfold handleFieldReveal
            dsimp only
            rw [if_neg (by rw [hufl']; exact Bool.false_ne_true),
              if_neg (show ¬((revealField s x y).2.fields y x = -1) by
                rw [huf]; exact hm),
              if_neg (show ¬((revealField s x y).2.fields y x = 0) by
                rw [huf]; exact h0),
              revealField_of_revealed hurev]
            dsimp only
            exact if_neg hfz

/-! ## The losing click -/

/-- Clicking a hidden, unflagged mine while at least one non-mine cell is
still unrevealed: the game is lost, every mine ends up revealed, and the
counters survive untouched. -/
lemma mousedown_mine_lost {s : GameState} {x y : Nat}
    (hov : s.isGameOver = false) (hfl : s.flagged y x = false)
    (hrev : s.revealed y x = false) (hm : s.fields y x = -1)
    (hfz : s.fieldsLeft ≠ 0) :
    (mousedown s false x y).restartClass = RestartClass.lost ∧
    (mousedown s false x y).isGameOver = true ∧
    (∀ y' x', y' < s.height → x' < s.width → s.fields y' x' = -1 →
      (mousedown s false x y).revealed y' x' = true) ∧
    (mousedown s false x y).fieldsLeft = s.fieldsLeft ∧
    (mousedown s false x y).minesLeft = s.minesLeft := by
  rw [mousedown_reveal_eq x y hov]
  have hfst : (revealField s x y).1 = true := revealField_fst_hidden hrev
  have hstep : handleFieldReveal s x y =
      (if (gameOver { (revealField s x y).2 with
          restartClass := RestartClass.lost }).fieldsLeft = 0 then
        gameOver { (gameOver { (revealField s x y).2 with
            restartClass := RestartClass.lost }) with
          restartClass := RestartClass.won }
      else gameOver { (revealField s x y).2 with
          restartClass := RestartClass.lost }) := by
    unfold handleFieldReveal
    dsimp only
    rw [if_neg (by rw [hfl]; exact Bool.false_ne_true), if_pos hm,
      if_pos hfst]
  have hg1fl : (gameOver { (revealField s x y).2 with
      restartClass := RestartClass.lost }).fieldsLeft = s.fieldsLeft :=
    (gameOver_frame _).2.2.2.2.2.2.2.trans (revealField_fieldsLeft_mine hm)
  have hne : (gameOver { (revealField s x y).2 with
      restartClass := RestartClass.lost }).fieldsLeft ≠ 0 := by
    rw [hg1fl]
    exact hfz
  rw [hstep, if_neg hne]
  refine ⟨(gameOver_frame _).2.2.2.2.2.2.1, (gameOver_frame _).2.2.2.2.2.1,
    ?_, hg1fl, (gameOver_frame _).2.2.2.2.1.trans (revealField_minesLeft s x y)⟩
  intro y' x' hy' hx' hm'
  refine gameOver_reveals_mines _ ?_ ?_ ?_
  · exact (revealField_height s x y).symm ▸ hy'
  · exact (revealField_width s x y).symm ▸ hx'
  · show (revealField s x y).2.fields y' x' = -1
    rw [revealField_fields]
    exact hm'

/-! ## Mines are unreachable from zero cells on generated grids -/

lemma placedGrid_boxMineCount_zero (hw : 0 < w) (hh : 0 < h) {l : List Nat}
    {F : Cell} (hg : PlacedGrid w h l F) {y x : Nat} (hy : y < h) (hx : x < w)
    (h0 : F y x = 0) : boxMineCount w h l y x = 0 := by
  have := hg y x
  rw [if_pos ⟨hy, hx⟩] at this
  by_cases hm : toIdx w y x ∈ l
  · rw [if_pos hm] at this
    rw [h0] at this
    exact absurd this.symm (by decide)
  · rw [if_neg hm] at this
    rw [h0] at this
    exact_mod_cast this.symm

lemma placedGrid_reach_nonmine (hw : 0 < w) (hh : 0 < h) {l : List Nat}
    {F : Cell} (hg : PlacedGrid w h l F) {y x : Nat} (h0 : F y x = 0) :
    ∀ y' x', Reach w h F y x y' x' → F y' x' ≠ -1 := by
  intro y' x' hr
  induction hr with
  | refl _ _ =>
    rw [h0]
    decide
  | @step y1 x1 y2 x2 hr2 hF hadj hy2 hx2 _ =>
    intro hc
    have hb1 := reach_bounds hr2
    have hcount : boxMineCount w h l y1 x1 = 0 :=
      placedGrid_boxMineCount_zero hw hh hg hb1.1 hb1.2 hF
    have hmem2 : toIdx w y2 x2 ∈ l := by
      have := hg y2 x2
      rw [if_pos ⟨hy2, hx2⟩] at this
      by_cases hm : toIdx w y2 x2 ∈ l
      · exact hm
      · rw [if_neg hm] at this
        rw [hc] at this
        exact absurd this.symm (by
          intro hcast
          have : ((boxMineCount w h l y2 x2 : Int)) < 0 := by
            rw [hcast]; decide
          omega)
    have hbox : ((y2, x2) : Nat × Nat) ∈ boxList w h y1 x1 := by
      rw [mem_boxList hw hh]
      rcases hadj with ⟨h1, h2 | h2⟩ | ⟨h1, h2 | h2⟩ <;>
        refine ⟨by omega, by omega, hy2, by omega, by omega, hx2⟩
    have hpos : 0 < boxMineCount w h l y1 x1 := by
      unfold boxMineCount
      refine List.countP_pos.mpr ?_
      exact ⟨(y2, x2), hbox, by simp [hmem2]⟩
    omega

/-- On a generated grid, a reveal at a zero cell can never produce the lost
outcome. -/
lemma mousedown_zero_not_lost {s : GameState} {x y : Nat}
    (h0 : s.fields y x = 0) (hnl : s.restartClass ≠ RestartClass.lost) :
    (mousedown s false x y).restartClass ≠ RestartClass.lost := by
  by_cases hov : s.isGameOver = true
  · rw [mousedown_over false x y hov]
    exact hnl
  · rw [mousedown_reveal_eq x y
      (by revert hov; cases s.isGameOver <;> simp)]
    by_cases hfl : s.flagged y x = true
    · rw [handleFieldReveal_of_flagged hfl]
      exact hnl
    · rw [handleFieldReveal_zero
        (by revert hfl; cases s.flagged y x <;> simp) h0]
      split
      · rw [(gameOver_frame _).2.2.2.2.2.2.1]
        exact (by decide : RestartClass.won ≠ RestartClass.lost)
      · rw [(revealEmptyArea_coreFrame s x y).2.2.2.2.2.2]
        exact hnl

/-! ## Order independence of mine placement -/

lemma insertMinesOn_perm (hw : 0 < w) (hh : 0 < h) (l₁ l₂ : List Nat)
    (hnd : l₁.Nodup) (hran : ∀ a ∈ l₁, a < w * h) (hperm : l₁.Perm l₂) :
    ∀ j i, insertMinesOn w h zeroGrid l₁ j i =
      insertMinesOn w h zeroGrid l₂ j i := by
  have hnd₂ : l₂.Nodup := hperm.nodup_iff.mp hnd
  have hran₂ : ∀ a ∈ l₂, a < w * h := fun a ha =>
    hran a (hperm.mem_iff.mpr ha)
  have hg₁ := insertMinesOn_placedGrid hw hh l₁ hnd hran
  have hg₂ := insertMinesOn_placedGrid hw hh l₂ hnd₂ hran₂
  intro j i
  rw [hg₁ j i, hg₂ j i]
  by_cases hb : j < h ∧ i < w
  · rw [if_pos hb, if_pos hb]
    by_cases hm : toIdx w j i ∈ l₁
    · rw [if_pos hm, if_pos (hperm.mem_iff.mp hm)]
    · rw [if_neg hm, if_neg (fun hc => hm (hperm.mem_iff.mpr hc))]
      have hcount : boxMineCount w h l₁ j i = boxMineCount w h l₂ j i := by
        unfold boxMineCount
        refine List.countP_congr ?_
        intro p _
        simp only [decide_eq_true_eq]
        exact hperm.mem_iff
      rw [hcount]
  · rw [if_neg hb, if_neg hb]

/-! ## The rejection-sampling loop -/

lemma addIndex_nodup {acc : List Nat} (h : acc.Nodup) (v : Nat) :
    (addIndex acc v).Nodup := by
  unfold addIndex
  split
  · exact h
  · rename_i hnm
    rw [← List.concat_eq_append]
    exact h.concat hnm

lemma addIndex_mem_bound {acc : List Nat} {size : Nat}
    (h : ∀ a ∈ acc, a < size) {v : Nat} (hv : v < size) :
    ∀ a ∈ addIndex acc v, a < size := by
  unfold addIndex
  split
  · exact h
  · intro a ha
    rcases List.mem_append.mp ha with hc | hc
    · exact h a hc
    · rw [List.mem_singleton.mp hc]
      exact hv

lemma addIndex_length_le (acc : List Nat) (v : Nat) :
    (addIndex acc v).length ≤ acc.length + 1 := by
  unfold addIndex
  split
  · omega
  · rw [List.length_append, List.length_singleton]

lemma addIndex_toFinset (acc : List Nat) (v : Nat) :
    (addIndex acc v).toFinset = insert v acc.toFinset := by
  unfold addIndex
  split
  · rename_i hmem
    rw [Finset.insert_eq_self.mpr (List.mem_toFinset.mpr hmem)]
  · rw [List.toFinset_append]
    apply Finset.ext
    intro a
    simp only [Finset.mem_union, List.mem_toFinset, List.mem_singleton,
      Finset.mem_insert]
    tauto

lemma sampleLoop_some (k : Nat) (d : Nat → Nat) (size : Nat)
    (hd : ∀ i2, d i2 < size) :
    ∀ (m i : Nat) (acc : List Nat), acc.Nodup → (∀ a ∈ acc, a < size) →
      acc.length ≤ k →
      k ≤ (acc.toFinset ∪ (Finset.Ico i (i + m)).image d).card →
      ∃ l, sampleLoop k d m i acc = some l ∧ l.length = k ∧ l.Nodup ∧
        ∀ a ∈ l, a < size := by
  intro m
  induction m with
  | zero =>
    intro i acc hnd hb hlen hcard
    by_cases hk : k ≤ acc.length
    · refine ⟨acc, ?_, by omega, hnd, hb⟩
      unfold sampleLoop
      rw [if_pos hk]
    · exfalso
      rw [Nat.add_zero, Finset.Ico_self, Finset.image_empty,
        Finset.union_empty, List.toFinset_card_of_nodup hnd] at hcard
      omega
  | succ m ihm =>
    intro i acc hnd hb hlen hcard
    by_cases hk : k ≤ acc.length
    · refine ⟨acc, ?_, by omega, hnd, hb⟩
      unfold sampleLoop
      rw [if_pos hk]
    · have hsub : acc.toFinset ∪ (Finset.Ico i (i + (m + 1))).image d ⊆
          (addIndex acc (d i)).toFinset ∪
            (Finset.Ico (i + 1) (i + 1 + m)).image d := by
        intro a ha
        rw [addIndex_toFinset]
        rcases Finset.mem_union.mp ha with hc | hc
        · exact Finset.mem_union_left _ (Finset.mem_insert_of_mem hc)
        · obtain ⟨t, ht, hta⟩ := Finset.mem_image.mp hc
          rw [Finset.mem_Ico] at ht
          by_cases hti : t = i
          · refine Finset.mem_union_left _ ?_
            rw [← hta, hti]
            exact Finset.mem_insert_self _ _
          · refine Finset.mem_union_right _ ?_
            refine Finset.mem_image.mpr ⟨t, ?_, hta⟩
            rw [Finset.mem_Ico]
            omega
      have hrec := ihm (i + 1) (addIndex acc (d i)) (addIndex_nodup hnd _)
        (addIndex_mem_bound hb (hd i))
        (by have := addIndex_length_le acc (d i); omega)
        (by
          calc k ≤ (acc.toFinset ∪
              (Finset.Ico i (i + (m + 1))).image d).card := hcard
            _ ≤ _ := Finset.card_le_card hsub)
      obtain ⟨l, hl, h1, h2, h3⟩ := hrec
      refine ⟨l, ?_, h1, h2, h3⟩
      unfold sampleLoop
      rw [if_neg hk]
      exact hl

/-- Every fair draw stream lets `insertMines`' sampling loop finish with
exactly `k` distinct in-range indices. -/
lemma sampleIndices_some (k : Nat) (d : Nat → Nat) (size : Nat)
    (hd : ∀ i2, d i2 < size) (n : Nat)
    (hfair : k ≤ ((Finset.range n).image d).card) :
    ∃ l, sampleIndices k d n = some l ∧ l.length = k ∧ l.Nodup ∧
      ∀ a ∈ l, a < size := by
  refine sampleLoop_some k d size hd n 0 [] List.nodup_nil
    (by intro a ha; exact absurd ha (List.not_mem_nil a)) (by simp) ?_
  have h1 : ([] : List Nat).toFinset = (∅ : Finset Nat) := rfl
  rw [h1, Finset.empty_union, Nat.zero_add,
    show Finset.Ico 0 n = Finset.range n from
      (congrFun Finset.range_eq_Ico n).symm]
  exact hfair

lemma mousedown_flag_eq {s : GameState} (x y : Nat)
    (h : s.isGameOver = false) :
    mousedown s true x y = handleFieldFlag s x y := by
  unfold mousedown
  rw [if_neg (by rw [h]; exact Bool.false_ne_true), if_pos rfl]

/-! ## The claims -/

/-- Claim C1: every grid produced by mine placement over `mineCount` distinct
in-range linear indices has exactly `mineCount` cells equal to the mine
sentinel `-1`, and every other on-board cell holds the number of mines in its
edge-clipped 8-neighbourhood, a value in `[0, 8]`. -/
theorem c1_generation_mine_and_neighbour_counts
    (w h mineCount : Nat) (l : List Nat) (hw : 0 < w) (hh : 0 < h)
    (hnd : l.Nodup) (hran : ∀ a ∈ l, a < w * h) (hlen : l.length = mineCount) :
    (mineCells w h (insertMinesOn w h zeroGrid l)).card = mineCount ∧
    ∀ y x, y < h → x < w → insertMinesOn w h zeroGrid l y x ≠ -1 →
      insertMinesOn w h zeroGrid l y x =
        (nbhdMineCount w h (insertMinesOn w h zeroGrid l) y x : Int) ∧
      0 ≤ insertMinesOn w h zeroGrid l y x ∧
      insertMinesOn w h zeroGrid l y x ≤ 8 := by
  have hg := insertMinesOn_placedGrid hw hh l hnd hran
  constructor
  · rw [mineCells_card hw hh l hnd hran _ hg]
    exact hlen
  · intro y x hy hx hnm
    have hval := placedGrid_nonmine_value hw hh l _ hg y x hy hx hnm
    refine ⟨hval, ?_, ?_⟩
    · rw [hval]
      exact Int.natCast_nonneg _
    · rw [hval]
      exact_mod_cast nbhdMineCount_le_eight hw hh _ y x hy hx

/-- Witness for C1 on the 3×1 board with the single mine at index 2. -/
theorem c1_generation_mine_and_neighbour_counts_witness :
    (0 < 3 ∧ ([2] : List Nat).Nodup ∧ (∀ a ∈ ([2] : List Nat), a < 3 * 1)) ∧
    ((mineCells 3 1 (insertMinesOn 3 1 zeroGrid [2])).card = 1 ∧
      ∀ y x, y < 1 → x < 3 → insertMinesOn 3 1 zeroGrid [2] y x ≠ -1 →
        insertMinesOn 3 1 zeroGrid [2] y x =
          (nbhdMineCount 3 1 (insertMinesOn 3 1 zeroGrid [2]) y x : Int) ∧
        0 ≤ insertMinesOn 3 1 zeroGrid [2] y x ∧
        insertMinesOn 3 1 zeroGrid [2] y x ≤ 8) :=
  ⟨⟨by decide, by decide, by decide⟩,
    c1_generation_mine_and_neighbour_counts 3 1 1 [2] (by decide) (by decide)
      (by decide) (by decide) rfl⟩

/-- Claim C2 as stated is violated by a winning cascade: on the 3×1 board
with the mine at index 2, revealing the zero cell `(0, 0)` floods the two
non-mine cells, wins the game, and the end-of-game sweep then also reveals
the mine at `(2, 0)`, a cell outside the flood region. -/
theorem c2_counterexample :
    (initGameStateWith 3 1 1 [2]).revealed 0 2 = false ∧
    (mousedown (initGameStateWith 3 1 1 [2]) false 0 0).revealed 0 2 = true ∧
    ¬ Reach 3 1 (initGameStateWith 3 1 1 [2]).fields 0 0 0 2 := by
  refine ⟨by decide, by decide, ?_⟩
  intro hr
  have hmem := visit_complete 3 1 (initGameStateWith 3 1 1 [2]) 0 0 0 2 hr
  revert hmem
  decide

/-- Claim C2 (amended): in an in-progress game, revealing an unflagged cell
of value zero reveals exactly the cells reachable through the zero region
(the region plus its nonzero border) and touches no other cell, provided
some unrevealed non-mine cell lies outside that region (otherwise the move
wins and the end-of-game sweep additionally reveals all mines). -/
theorem c2_cascade_reveals_exactly_region (s : GameState) (x y : Nat)
    (hx : x < s.width) (hy : y < s.height) (hov : s.isGameOver = false)
    (hfl : s.flagged y x = false) (h0 : s.fields y x = 0)
    (hInv : FieldsLeftInv s)
    (hout : ∃ y' x', y' < s.height ∧ x' < s.width ∧ s.fields y' x' ≠ -1 ∧
      s.revealed y' x' = false ∧
      ¬Reach s.width s.height s.fields y x y' x') :
    (∀ y' x', Reach s.width s.height s.fields y x y' x' →
      (mousedown s false x y).revealed y' x' = true) ∧
    (∀ y' x', ¬Reach s.width s.height s.fields y x y' x' →
      (mousedown s false x y).revealed y' x' = s.revealed y' x' ∧
      (mousedown s false x y).flagged y' x' = s.flagged y' x') := by
  have heq : mousedown s false x y = revealEmptyArea s x y := by
    rw [mousedown_reveal_eq x y hov, handleFieldReveal_zero hfl h0,
      if_neg (cascade_fieldsLeft_pos hInv hout)]
  rw [heq]
  exact ⟨fun y' x' hr => revealEmptyArea_reveals y' x' hr,
    fun y' x' hnr => revealEmptyArea_not_reached_unchanged y' x' hnr⟩

/-- Witness for the amended C2 on the 5×1 board with the mine at index 2:
cell `(3, 0)` is a hidden non-mine cell outside the flood region of `(0,0)`. -/
theorem c2_cascade_reveals_exactly_region_witness :
    (0 < 5 ∧ (initGameStateWith 5 1 1 [2]).isGameOver = false) ∧
    ((∀ y' x',
        Reach (initGameStateWith 5 1 1 [2]).width
          (initGameStateWith 5 1 1 [2]).height
          (initGameStateWith 5 1 1 [2]).fields 0 0 y' x' →
        (mousedown (initGameStateWith 5 1 1 [2]) false 0 0).revealed y' x' =
          true) ∧
      (∀ y' x',
        ¬Reach (initGameStateWith 5 1 1 [2]).width
          (initGameStateWith 5 1 1 [2]).height
          (initGameStateWith 5 1 1 [2]).fields 0 0 y' x' →
        (mousedown (initGameStateWith 5 1 1 [2]) false 0 0).revealed y' x' =
          (initGameStateWith 5 1 1 [2]).revealed y' x' ∧
        (mousedown (initGameStateWith 5 1 1 [2]) false 0 0).flagged y' x' =
          (initGameStateWith 5 1 1 [2]).flagged y' x')) :=
  ⟨⟨by decide, by decide⟩,
    c2_cascade_reveals_exactly_region (initGameStateWith 5 1 1 [2]) 0 0
      (by decide) (by decide) (by decide) (by decide) (by decide)
      (by unfold FieldsLeftInv hiddenNonMine; decide)
      ⟨0, 3, by decide, by decide, by decide, by decide, by
        intro hr
        have hmem := visit_complete 5 1 (initGameStateWith 5 1 1 [2]) 0 0 0 3 hr
        revert hmem
        decide⟩⟩

/-- Claim C3: `fieldsLeft` decreases by exactly one exactly when a hidden
non-mine cell becomes revealed (never for a mine, never for an already
revealed cell), the accounting invariant `fieldsLeft = number of hidden
non-mine cells` is preserved by every click, and a second reveal click on
the same cell has no further effect. -/
theorem c3_fieldsLeft_accounting (s : GameState) (x y : Nat)
    (hx : x < s.width) (hy : y < s.height) :
    (s.revealed y x = false → s.fields y x ≠ -1 →
      (revealField s x y).2.fieldsLeft = s.fieldsLeft - 1 ∧
      (revealField s x y).2.revealed y x = true) ∧
    (s.revealed y x = false → s.fields y x = -1 →
      (revealField s x y).2.fieldsLeft = s.fieldsLeft) ∧
    (s.revealed y x = true → revealField s x y = (false, s)) ∧
    (∀ rb : Bool, FieldsLeftInv s → FieldsLeftInv (mousedown s rb x y)) ∧
    mousedown (mousedown s false x y) false x y = mousedown s false x y := by
  refine ⟨fun hrev hm => ⟨revealField_fieldsLeft_nonmine hrev hm,
      revealField_revealed_self hrev⟩,
    fun _ hm => revealField_fieldsLeft_mine hm,
    fun hrev => revealField_of_revealed hrev,
    fun rb hInv => mousedown_fieldsLeftInv rb hx hy hInv,
    mousedown_reveal_idem s x y hx hy⟩

/-- Witness for C3 at cell `(1, 0)` of the fresh 3×1 board. -/
theorem c3_fieldsLeft_accounting_witness :
    ((1 : Nat) < 3 ∧ (initGameStateWith 3 1 1 [2]).revealed 0 1 = false) ∧
    (((initGameStateWith 3 1 1 [2]).revealed 0 1 = false →
        (initGameStateWith 3 1 1 [2]).fields 0 1 ≠ -1 →
        (revealField (initGameStateWith 3 1 1 [2]) 1 0).2.fieldsLeft =
          (initGameStateWith 3 1 1 [2]).fieldsLeft - 1 ∧
        (revealField (initGameStateWith 3 1 1 [2]) 1 0).2.revealed 0 1 =
          true) ∧
      ((initGameStateWith 3 1 1 [2]).revealed 0 1 = false →
        (initGameStateWith 3 1 1 [2]).fields 0 1 = -1 →
        (revealField (initGameStateWith 3 1 1 [2]) 1 0).2.fieldsLeft =
          (initGameStateWith 3 1 1 [2]).fieldsLeft) ∧
      ((initGameStateWith 3 1 1 [2]).revealed 0 1 = true →
        revealField (initGameStateWith 3 1 1 [2]) 1 0 =
          (false, initGameStateWith 3 1 1 [2])) ∧
      (∀ rb : Bool, FieldsLeftInv (initGameStateWith 3 1 1 [2]) →
        FieldsLeftInv (mousedown (initGameStateWith 3 1 1 [2]) rb 1 0)) ∧
      mousedown (mousedown (initGameStateWith 3 1 1 [2]) false 1 0) false 1 0 =
        mousedown (initGameStateWith 3 1 1 [2]) false 1 0) :=
  ⟨⟨by decide, by decide⟩,
    c3_fieldsLeft_accounting (initGameStateWith 3 1 1 [2]) 1 0 (by decide)
      (by decide)⟩

/-- Claim C4 as stated fails on a board that is all mines: on the 1×1 board
whose only cell is a mine, `fieldsLeft` is already `0`, so after the losing
reveal the win check still fires and overwrites the outcome with `won`. -/
theorem c4_counterexample :
    (initGameStateWith 1 1 1 [0]).isGameOver = false ∧
    (initGameStateWith 1 1 1 [0]).fields 0 0 = -1 ∧
    (initGameStateWith 1 1 1 [0]).flagged 0 0 = false ∧
    (initGameStateWith 1 1 1 [0]).revealed 0 0 = false ∧
    (mousedown (initGameStateWith 1 1 1 [0]) false 0 0).restartClass =
      RestartClass.won := by
  decide

/-- Claim C4 (amended): revealing an unflagged, unrevealed mine in an
in-progress game whose `nonMineCellsRemaining` is still positive makes the
outcome `Lost`, sets `isGameOver`, reveals every mine, and changes neither
`fieldsLeft` nor `minesLeft` (so the win transition is not triggered). -/
theorem c4_mine_reveal_loses (s : GameState) (x y : Nat)
    (hov : s.isGameOver = false) (hfl : s.flagged y x = false)
    (hrev : s.revealed y x = false) (hm : s.fields y x = -1)
    (hfz : s.fieldsLeft ≠ 0) :
    (mousedown s false x y).restartClass = RestartClass.lost ∧
    (mousedown s false x y).isGameOver = true ∧
    (∀ y' x', y' < s.height → x' < s.width → s.fields y' x' = -1 →
      (mousedown s false x y).revealed y' x' = true) ∧
    (mousedown s false x y).fieldsLeft = s.fieldsLeft ∧
    (mousedown s false x y).minesLeft = s.minesLeft :=
  mousedown_mine_lost hov hfl hrev hm hfz

/-- Witness for the amended C4 on the 3×1 board: clicking the mine at
`(2, 0)` loses and reveals it. -/
theorem c4_mine_reveal_loses_witness :
    ((initGameStateWith 3 1 1 [2]).fields 0 2 = -1 ∧
      (initGameStateWith 3 1 1 [2]).fieldsLeft ≠ 0) ∧
    ((mousedown (initGameStateWith 3 1 1 [2]) false 2 0).restartClass =
        RestartClass.lost ∧
      (mousedown (initGameStateWith 3 1 1 [2]) false 2 0).isGameOver = true ∧
      (∀ y' x', y' < (initGameStateWith 3 1 1 [2]).height →
        x' < (initGameStateWith 3 1 1 [2]).width →
        (initGameStateWith 3 1 1 [2]).fields y' x' = -1 →
        (mousedown (initGameStateWith 3 1 1 [2]) false 2 0).revealed y' x' =
          true) ∧
      (mousedown (initGameStateWith 3 1 1 [2]) false 2 0).fieldsLeft =
        (initGameStateWith 3 1 1 [2]).fieldsLeft ∧
      (mousedown (initGameStateWith 3 1 1 [2]) false 2 0).minesLeft =
        (initGameStateWith 3 1 1 [2]).minesLeft) :=
  ⟨⟨by decide, by decide⟩,
    c4_mine_reveal_loses (initGameStateWith 3 1 1 [2]) 2 0 (by decide)
      (by decide) (by decide) (by decide) (by decide)⟩

/-- Claim C5 as stated is violated: a flagged cell can be revealed by a
cascade passing over it.  On the 3×1 board with the mine at index 2, flag
cell `(1, 0)` and then reveal the zero cell `(0, 0)`: the flood fill clears
the flag and reveals the flagged cell. -/
theorem c5_counterexample :
    (mousedown (initGameStateWith 3 1 1 [2]) true 1 0).flagged 0 1 = true ∧
    (mousedown (initGameStateWith 3 1 1 [2]) true 1 0).revealed 0 1 = false ∧
    (mousedown (mousedown (initGameStateWith 3 1 1 [2]) true 1 0)
      false 0 0).revealed 0 1 = true := by
  decide

/-- Claim C5 (amended): a reveal request directly targeting a flagged cell
is a complete no-op, but flagged cells can still become revealed indirectly,
through a cascade or the end-of-game mine sweep, which silently clear the
flag. -/
theorem c5_flagged_direct_reveal_noop (s : GameState) (x y : Nat)
    (hfl : s.flagged y x = true) : mousedown s false x y = s :=
  mousedown_flagged_noop hfl

/-- Witness for the amended C5: revealing the freshly flagged `(1, 0)`
directly changes nothing. -/
theorem c5_flagged_direct_reveal_noop_witness :
    (mousedown (initGameStateWith 3 1 1 [2]) true 1 0).flagged 0 1 = true ∧
    mousedown (mousedown (initGameStateWith 3 1 1 [2]) true 1 0) false 1 0 =
      mousedown (initGameStateWith 3 1 1 [2]) true 1 0 :=
  ⟨by decide,
    c5_flagged_direct_reveal_noop
      (mousedown (initGameStateWith 3 1 1 [2]) true 1 0) 1 0 (by decide)⟩

/-- Claim C6 as stated is violated: when the cascade reveals a flagged cell
it clears the flag without restoring `minesLeft`, breaking the equality
`minesLeft = minesCount - #flagged`.  Same scenario as the C5 counterexample. -/
theorem c6_counterexample :
    MinesLeftInv (mousedown (initGameStateWith 3 1 1 [2]) true 1 0) ∧
    ¬ MinesLeftInv (mousedown (mousedown (initGameStateWith 3 1 1 [2]) true 1 0)
      false 0 0) := by
  unfold MinesLeftInv flaggedCount
  decide

/-- Claim C6 (amended): a flag toggle on an unrevealed cell moves `minesLeft`
by `-1` when flagging and `+1` when unflagging (no clamping) and preserves
the equality `minesLeft = minesCount - #flagged`; reveal clicks never change
`minesLeft`, but they may clear flags (cascades and the end-of-game sweep),
after which the equality no longer holds. -/
theorem c6_minesLeft_accounting (s : GameState) (x y : Nat)
    (hx : x < s.width) (hy : y < s.height) :
    (mousedown s false x y).minesLeft = s.minesLeft ∧
    (s.isGameOver = false → s.revealed y x = false →
      (mousedown s true x y).minesLeft =
        s.minesLeft + (if s.flagged y x = true then 1 else -1)) ∧
    (MinesLeftInv s → MinesLeftInv (mousedown s true x y)) := by
  refine ⟨mousedown_reveal_minesLeft s x y, ?_,
    fun hInv => mousedown_flag_minesLeftInv hx hy hInv⟩
  intro hov hrev
  rw [mousedown_flag_eq x y hov]
  exact handleFieldFlag_minesLeft hrev

/-- Witness for the amended C6 at cell `(1, 0)` of the fresh 3×1 board. -/
theorem c6_minesLeft_accounting_witness :
    ((1 : Nat) < 3 ∧ (initGameStateWith 3 1 1 [2]).isGameOver = false) ∧
    ((mousedown (initGameStateWith 3 1 1 [2]) false 1 0).minesLeft =
        (initGameStateWith 3 1 1 [2]).minesLeft ∧
      ((initGameStateWith 3 1 1 [2]).isGameOver = false →
        (initGameStateWith 3 1 1 [2]).revealed 0 1 = false →
        (mousedown (initGameStateWith 3 1 1 [2]) true 1 0).minesLeft =
          (initGameStateWith 3 1 1 [2]).minesLeft +
            (if (initGameStateWith 3 1 1 [2]).flagged 0 1 = true then 1
              else -1)) ∧
      (MinesLeftInv (initGameStateWith 3 1 1 [2]) →
        MinesLeftInv (mousedown (initGameStateWith 3 1 1 [2]) true 1 0))) :=
  ⟨⟨by decide, by decide⟩,
    c6_minesLeft_accounting (initGameStateWith 3 1 1 [2]) 1 0 (by decide)
      (by decide)⟩

/-- Claim C7: once the game is over, every further click, reveal or flag, at
any coordinate, leaves the whole session state unchanged. -/
theorem c7_no_effect_once_over (s : GameState) (rb : Bool) (x y : Nat)
    (h : s.isGameOver = true) : mousedown s rb x y = s :=
  mousedown_over rb x y h

/-- Witness for C7: after losing on the all-mine 1×1 board, a further flag
click at an arbitrary coordinate does nothing. -/
theorem c7_no_effect_once_over_witness :
    (mousedown (initGameStateWith 1 1 1 [0]) false 0 0).isGameOver = true ∧
    mousedown (mousedown (initGameStateWith 1 1 1 [0]) false 0 0) true 5 7 =
      mousedown (initGameStateWith 1 1 1 [0]) false 0 0 :=
  ⟨by decide,
    c7_no_effect_once_over (mousedown (initGameStateWith 1 1 1 [0]) false 0 0)
      true 5 7 (by decide)⟩

/-- Claim C8: for a fixed set of chosen mine indices, the final grid does not
depend on the order in which `insertMines` iterates over them. -/
theorem c8_placement_order_irrelevant (w h : Nat) (l₁ l₂ : List Nat)
    (hw : 0 < w) (hh : 0 < h) (hnd : l₁.Nodup)
    (hran : ∀ a ∈ l₁, a < w * h) (hperm : l₁.Perm l₂) :
    ∀ j i, insertMinesOn w h zeroGrid l₁ j i =
      insertMinesOn w h zeroGrid l₂ j i :=
  insertMinesOn_perm hw hh l₁ l₂ hnd hran hperm

/-- Witness for C8 on the 4×1 board with mines at indices 0 and 3, placed in
the two possible orders. -/
theorem c8_placement_order_irrelevant_witness :
    ([0, 3] : List Nat).Perm [3, 0] ∧
    ∀ j i, insertMinesOn 4 1 zeroGrid [0, 3] j i =
      insertMinesOn 4 1 zeroGrid [3, 0] j i :=
  ⟨by decide,
    c8_placement_order_irrelevant 4 1 [0, 3] [3, 0] (by decide) (by decide)
      (by decide) (by decide) (by decide)⟩

/-- Termination of the sampling phase of `insertMines` for mine count `k`
and draw stream `d`: the `while` loop finishes after some number of
iterations. -/
def SampleTerminates (k : Nat) (d : Nat → Nat) : Prop :=
  ∃ fuel l, sampleIndices k d fuel = some l

/-- No fuel lets the sampler collect two distinct indices from the constant
stream 0. -/
lemma sampleIndices_const_zero_none :
    ∀ fuel, sampleIndices 2 (fun _ => 0) fuel = none := by
  have haux : ∀ fuel i, sampleLoop 2 (fun _ => 0) fuel i [0] = none := by
    intro fuel
    induction fuel with
    | zero =>
      intro i
      unfold sampleLoop
      rw [if_neg (by decide)]
    | succ fuel ihf =>
      intro i
      unfold sampleLoop
      rw [if_neg (by decide)]
      have hadd : addIndex [0] ((fun _ : Nat => (0 : Nat)) i) = [0] :=
        show addIndex [0] 0 = [0] by decide
      rw [hadd]
      exact ihf (i + 1)
  intro fuel
  cases fuel with
  | zero =>
    unfold sampleIndices sampleLoop
    rw [if_neg (by decide)]
  | succ fuel =>
    unfold sampleIndices sampleLoop
    rw [if_neg (by decide)]
    have hadd : addIndex [] ((fun _ : Nat => (0 : Nat)) 0) = [0] :=
      show addIndex [] 0 = [0] by decide
    rw [hadd]
    exact haux fuel 1

/-- Claim C9 as stated is violated for an adversarial entropy stream: with
`width*height = 3` and `mineCount = 2 < 3`, a stream that always draws index
0 makes the rejection-sampling loop run forever (no amount of fuel makes it
finish). -/
theorem c9_counterexample : ¬ SampleTerminates 2 (fun _ => 0) := by
  rintro ⟨fuel, l, hl⟩
  rw [sampleIndices_const_zero_none fuel] at hl
  exact Option.noConfusion hl

/-- Claim C9 (amended): for every entropy stream of in-range draws that
attains at least `mineCount` distinct values (true with probability 1 for
uniform draws), the sampling loop terminates with `mineCount` distinct
in-range indices and the resulting grid satisfies the mine-count and
neighbour-count properties. -/
theorem c9_generation_terminates_for_fair_streams (w h k : Nat)
    (d : Nat → Nat) (hw : 0 < w) (hh : 0 < h) (hd : ∀ i2, d i2 < w * h)
    (n : Nat) (hfair : k ≤ ((Finset.range n).image d).card) :
    ∃ fuel l, sampleIndices k d fuel = some l ∧ l.length = k ∧ l.Nodup ∧
      (∀ a ∈ l, a < w * h) ∧
      (mineCells w h (insertMinesOn w h zeroGrid l)).card = k ∧
      ∀ y x, y < h → x < w → insertMinesOn w h zeroGrid l y x ≠ -1 →
        insertMinesOn w h zeroGrid l y x =
          (nbhdMineCount w h (insertMinesOn w h zeroGrid l) y x : Int) := by
  obtain ⟨l, hsome, hlen, hnd, hb⟩ := sampleIndices_some k d (w * h) hd n hfair
  have hg := insertMinesOn_placedGrid hw hh l hnd hb
  refine ⟨n, l, hsome, hlen, hnd, hb, ?_, ?_⟩
  · rw [mineCells_card hw hh l hnd hb _ hg]
    exact hlen
  · intro y x hy hx hnm
    exact placedGrid_nonmine_value hw hh l _ hg y x hy hx hnm

/-- Witness for the amended C9: the constant stream drawing index 2 on the
3×1 board yields one mine. -/
theorem c9_generation_terminates_for_fair_streams_witness :
    ((1 : Nat) ≤ ((Finset.range 1).image (fun _ : Nat => (2 : Nat))).card) ∧
    (∃ fuel l, sampleIndices 1 (fun _ : Nat => (2 : Nat)) fuel = some l ∧
      l.length = 1 ∧ l.Nodup ∧ (∀ a ∈ l, a < 3 * 1) ∧
      (mineCells 3 1 (insertMinesOn 3 1 zeroGrid l)).card = 1 ∧
      ∀ y x, y < 1 → x < 3 → insertMinesOn 3 1 zeroGrid l y x ≠ -1 →
        insertMinesOn 3 1 zeroGrid l y x =
          (nbhdMineCount 3 1 (insertMinesOn 3 1 zeroGrid l) y x : Int)) :=
  ⟨by decide,
    c9_generation_terminates_for_fair_streams 3 1 1 (fun _ => 2) (by decide)
      (by decide) (fun i2 => show (2 : Nat) < 3 * 1 by decide) 1
      (by decide)⟩

/-- Claim C10: on a generated grid, the flood fill started at a zero cell
never reaches a mine (a zero cell has no mine neighbours, so the region and
its border are mine-free), the cascade leaves every mine's reveal and flag
state untouched, and a reveal at a zero cell can never produce the `lost`
outcome. -/
theorem c10_cascade_never_hits_mine (w h : Nat) (l : List Nat)
    (s : GameState) (x y : Nat) (hw : 0 < w) (hh : 0 < h) (hnd : l.Nodup)
    (hran : ∀ a ∈ l, a < w * h) (hW : s.width = w) (hH : s.height = h)
    (hF : s.fields = insertMinesOn w h zeroGrid l)
    (h0 : s.fields y x = 0) :
    (∀ y' x', Reach w h s.fields y x y' x' → s.fields y' x' ≠ -1) ∧
    (∀ y' x', s.fields y' x' = -1 →
      (revealEmptyArea s x y).revealed y' x' = s.revealed y' x' ∧
      (revealEmptyArea s x y).flagged y' x' = s.flagged y' x') ∧
    (s.restartClass ≠ RestartClass.lost →
      (mousedown s false x y).restartClass ≠ RestartClass.lost) := by
  have hg : PlacedGrid w h l s.fields := by
    rw [hF]
    exact insertMinesOn_placedGrid hw hh l hnd hran
  have hmf := placedGrid_reach_nonmine hw hh hg h0
  refine ⟨hmf, ?_, fun hnl => mousedown_zero_not_lost h0 hnl⟩
  intro y' x' hm'
  have hnr : ¬ Reach s.width s.height s.fields y x y' x' := by
    rw [hW, hH]
    intro hr
    exact hmf y' x' hr hm'
  exact revealEmptyArea_not_reached_unchanged y' x' hnr

/-- Witness for C10 on the fresh 3×1 board, cascading from `(0, 0)`. -/
theorem c10_cascade_never_hits_mine_witness :
    ((initGameStateWith 3 1 1 [2]).fields 0 0 = 0) ∧
    ((∀ y' x', Reach 3 1 (initGameStateWith 3 1 1 [2]).fields 0 0 y' x' →
        (initGameStateWith 3 1 1 [2]).fields y' x' ≠ -1) ∧
      (∀ y' x', (initGameStateWith 3 1 1 [2]).fields y' x' = -1 →
        (revealEmptyArea (initGameStateWith 3 1 1 [2]) 0 0).revealed y' x' =
          (initGameStateWith 3 1 1 [2]).revealed y' x' ∧
        (revealEmptyArea (initGameStateWith 3 1 1 [2]) 0 0).flagged y' x' =
          (initGameStateWith 3 1 1 [2]).flagged y' x') ∧
      ((initGameStateWith 3 1 1 [2]).restartClass ≠ RestartClass.lost →
        (mousedown (initGameStateWith 3 1 1 [2]) false 0 0).restartClass ≠
          RestartClass.lost)) :=
  ⟨by decide,
    c10_cascade_never_hits_mine 3 1 [2] (initGameStateWith 3 1 1 [2]) 0 0
      (by decide) (by decide) (by decide) (by decide) rfl rfl rfl (by decide)⟩

end Minesweeper

